import Mathlib

/-!
# Windowed CloudWatch Logs Insights query driver (`main.go`)

A shallow embedding of `App.Execute` and `App.sendQuery`.

* `int64` instants are integers; the one arithmetic operation of the program,
  `start + 60`, wraps modulo `2^64` (`wrapInt64`), as Go's signed addition does.
  The start and end instants of a run are the Unix seconds of two parsed 14-digit
  timestamps (`ParsedInstant`), for which no `start + 60` of the loop overflows.
* The CloudWatch Logs client is an explicit state machine (`Client σ`): each call
  takes the backend state and returns a response together with the next state.
* The two `for { ... }` loops are unbounded in the source, so both take a fuel
  argument; a run that exhausts its fuel has result `none`.
* Every run records the trace of its observable actions (`Event`): the two client
  calls with their responses, the sleeps between polls and the lines printed on
  standard output.
-/

namespace CloudwatchLogs

/-! ## Data model -/

/-- Go `error` values, identified by their message. -/
abbrev Error := String

/-- The SDK type `types.QueryStatus`, a string type. -/
abbrev QueryStatus := String

def QueryStatusScheduled : QueryStatus := "Scheduled"
def QueryStatusRunning : QueryStatus := "Running"
def QueryStatusComplete : QueryStatus := "Complete"
def QueryStatusFailed : QueryStatus := "Failed"
def QueryStatusCancelled : QueryStatus := "Cancelled"
def QueryStatusTimeout : QueryStatus := "Timeout"
def QueryStatusUnknown : QueryStatus := "Unknown"

/-- The SDK type `types.ResultField`: both members are `*string`, `none` is `nil`. -/
structure ResultField where
  Field : Option String
  Value : Option String
deriving DecidableEq, Repr

/-- The members of `cloudwatchlogs.StartQueryInput` that `sendQuery` sets; each is
set through `aws.String`, `aws.Int64` or `aws.Int32`, so none is ever `nil`. -/
structure StartQueryInput where
  LogGroupName : String
  QueryString : String
  StartTime : Int
  EndTime : Int
  Limit : Int
deriving DecidableEq, Repr

/-- The SDK type `cloudwatchlogs.StartQueryOutput`; `QueryId` is a `*string`. -/
structure StartQueryOutput where
  QueryId : Option String
deriving DecidableEq, Repr

/-- The SDK type `cloudwatchlogs.GetQueryResultsInput`. -/
structure GetQueryResultsInput where
  QueryId : Option String
deriving DecidableEq, Repr

/-- The members of `cloudwatchlogs.GetQueryResultsOutput` that the program reads. -/
structure GetQueryResultsOutput where
  Results : List (List ResultField)
  Status : QueryStatus
deriving DecidableEq, Repr

/-- The two operations of `*cloudwatchlogs.Client` that the program calls, over an
explicit backend state `σ`. -/
structure Client (σ : Type) where
  StartQuery : StartQueryInput → σ → Except Error StartQueryOutput × σ
  GetQueryResults : GetQueryResultsInput → σ → Except Error GetQueryResultsOutput × σ

/-- Observable actions of a run, in the order in which they happen. -/
inductive Event where
  /-- A call `client.StartQuery(ctx, queryInput)` and what it returned. -/
  | StartQuery (input : StartQueryInput) (output : Except Error StartQueryOutput)
  /-- A call `client.GetQueryResults(ctx, input)` and what it returned. -/
  | GetQueryResults (input : GetQueryResultsInput) (output : Except Error GetQueryResultsOutput)
  /-- The call `time.Sleep(seconds * time.Second)`. -/
  | Sleep (seconds : Nat)
  /-- The line written by `fmt.Printf("Results: %d\n", n)`. -/
  | Printf (n : Nat)
  /-- The line written by `fmt.Println(s)`. -/
  | Println (s : String)

/-- What a (fuel-bounded) run leaves behind: the backend state, the trace, and the
returned value, `none` when the fuel ran out before the code returned. -/
structure Run (σ α : Type) where
  state : σ
  trace : List Event
  result : Option α

/-- The fields of `Param` that `Execute` reads.  `StartTime` and `EndTime` hold the
`int64` values returned by `param.StartTime()` and `param.EndTime()`; parsing the
`Start` and `End` strings is outside the embedding, and `ParsedInstant` bounds the
values that the parse can return. -/
structure Param where
  AWSProfile : String
  Filter : String
  LogGroup : String
  StartTime : Int
  EndTime : Int

/-- How a call of `Execute` ends: it returns an `error` (`none` is `nil`), or it
panics on a nil pointer dereference. -/
inductive Outcome where
  | returned (err : Option Error)
  | panicked
deriving DecidableEq, Repr

/-! ## `int64` arithmetic -/

def minInt64 : Int := -9223372036854775808

def maxInt64 : Int := 9223372036854775807

/-- The `int64` value of an integer: reduction modulo `2^64` into
`[-2^63, 2^63)`. -/
def wrapInt64 (x : Int) : Int :=
  (x + 9223372036854775808) % 18446744073709551616 - 9223372036854775808

/-! ## `App.sendQuery` -/

/-- The query string built at lines 105-107. -/
def queryString (filter : String) : String :=
  "fields @timestamp, @message, @logStream, @log\n| filter @message like /" ++ filter ++
    "/\n| sort @timestamp desc"

/-- The poll loop of `sendQuery` (lines 122-138). -/
def pollLoop {σ : Type} (client : Client σ) (queryId : Option String) :
    Nat → σ → Run σ (Except Error GetQueryResultsOutput)
  | 0, st => ⟨st, [], none⟩
  | fuel + 1, st =>
    match client.GetQueryResults ⟨queryId⟩ st with
    | (.error err, st1) => ⟨st1, [.GetQueryResults ⟨queryId⟩ (.error err)], some (.error err)⟩
    | (.ok queryResult, st1) =>
      if queryResult.Status = QueryStatusRunning ∨ queryResult.Status = QueryStatusScheduled then
        let rest := pollLoop client queryId fuel st1
        ⟨rest.state,
          .GetQueryResults ⟨queryId⟩ (.ok queryResult) :: .Sleep 5 :: rest.trace, rest.result⟩
      else if queryResult.Status = QueryStatusComplete then
        ⟨st1, [.GetQueryResults ⟨queryId⟩ (.ok queryResult)], some (.ok queryResult)⟩
      else
        ⟨st1, [.GetQueryResults ⟨queryId⟩ (.ok queryResult)], some (.error "query failed")⟩

/-- `App.sendQuery` (lines 104-140); `pollFuel` bounds the number of polls. -/
def App.sendQuery {σ : Type} (client : Client σ) (pollFuel : Nat) (filter logGroup : String)
    (start end_ : Int) (st : σ) : Run σ (Except Error GetQueryResultsOutput) :=
  let queryInput : StartQueryInput :=
    { LogGroupName := logGroup
      QueryString := queryString filter
      StartTime := start
      EndTime := end_
      Limit := 10000 }
  match client.StartQuery queryInput st with
  | (.error err, st1) => ⟨st1, [.StartQuery queryInput (.error err)], some (.error err)⟩
  | (.ok queryOutput, st1) =>
    let polled := pollLoop client queryOutput.QueryId pollFuel st1
    ⟨polled.state, .StartQuery queryInput (.ok queryOutput) :: polled.trace, polled.result⟩

/-! ## `App.Execute` -/

/-- The inner loop over the fields of one record (lines 89-93): the lines printed,
and `false` when a nil `Field` or `Value` is dereferenced. -/
def printFields : List ResultField → List Event × Bool
  | [] => ([], true)
  | field :: rest =>
    match field.Field with
    | none => ([], false)
    | some name =>
      if name = "@message" then
        match field.Value with
        | none => ([], false)
        | some value =>
          let tail := printFields rest
          (.Println value :: tail.1, tail.2)
      else printFields rest

/-- The loop over the records of one response (lines 88-94). -/
def printResults : List (List ResultField) → List Event × Bool
  | [] => ([], true)
  | result :: rest =>
    match printFields result with
    | (out, false) => (out, false)
    | (out, true) =>
      let tail := printResults rest
      (out ++ tail.1, tail.2)

/-- The `end` of the window that starts at `start` (lines 76-79). -/
def windowEnd (endTime start : Int) : Int :=
  let end_ := wrapInt64 (start + 60)
  if end_ > endTime then endTime else end_

/-- The window loop of `Execute` (lines 74-101), entered with the current `start`;
`fuel` bounds the number of iterations. -/
def windowLoop {σ : Type} (client : Client σ) (pollFuel : Nat) (param : Param) :
    Nat → Int → σ → Run σ Outcome
  | 0, _, st => ⟨st, [], none⟩
  | fuel + 1, start, st =>
    let end_ := windowEnd param.EndTime start
    let q := App.sendQuery client pollFuel param.Filter param.LogGroup start end_ st
    match q.result with
    | none => ⟨q.state, q.trace, none⟩
    | some (.error _) => ⟨q.state, q.trace, some (.returned none)⟩
    | some (.ok res) =>
      let printed := printResults res.Results
      let tr := q.trace ++ .Printf res.Results.length :: printed.1
      if printed.2 = false then ⟨q.state, tr, some .panicked⟩
      else if end_ ≥ param.EndTime then ⟨q.state, tr, some (.returned none)⟩
      else
        let rest := windowLoop client pollFuel param fuel end_ q.state
        ⟨rest.state, tr ++ rest.trace, rest.result⟩

/-- `App.Execute` (lines 63-102).  `cfg` is what `config.LoadDefaultConfig` returned;
the `log.Printf` line goes to standard error and is not part of the trace. -/
def App.Execute {σ : Type} (cfg : Except Error Unit) (client : Client σ) (pollFuel fuel : Nat)
    (param : Param) (st : σ) : Run σ Outcome :=
  match cfg with
  | .error err => ⟨st, [], some (.returned (some err))⟩
  | .ok _ => windowLoop client pollFuel param fuel param.StartTime st

/-! ## Reading a trace -/

/-- The `(start, end)` windows submitted to the backend, in order: one per
`StartQuery` call, which is the first action of every `sendQuery` call. -/
def windows (tr : List Event) : List (Int × Int) :=
  tr.filterMap fun
    | .StartQuery input _ => some (input.StartTime, input.EndTime)
    | _ => none

/-- The lines written to standard output, in order. -/
def stdout (tr : List Event) : List Event :=
  tr.filter fun
    | .Printf _ => true
    | .Println _ => true
    | _ => false

/-- The `Complete` responses received, in order: one per window whose `sendQuery`
call returned a result. -/
def completed (tr : List Event) : List GetQueryResultsOutput :=
  tr.filterMap fun
    | .GetQueryResults _ (.ok r) => if r.Status = QueryStatusComplete then some r else none
    | _ => none

/-- The event ends the `sendQuery` call in progress with an error: a rejected
submission, a failed poll, or a poll response whose status is terminal and not
`Complete`. -/
def Event.isFailure : Event → Bool
  | .StartQuery _ (.error _) => true
  | .GetQueryResults _ (.error _) => true
  | .GetQueryResults _ (.ok r) =>
    decide (¬ (r.Status = QueryStatusRunning ∨ r.Status = QueryStatusScheduled) ∧
      r.Status ≠ QueryStatusComplete)
  | _ => false

/-- The number of `GetQueryResults` calls in a trace. -/
def pollCount (tr : List Event) : Nat :=
  (tr.filter fun
    | .GetQueryResults _ _ => true
    | _ => false).length

/-- What `Execute` prints for one result (lines 86-94): the count line, then the
lines of the print loop. -/
def windowOutput (res : GetQueryResultsOutput) : List Event :=
  .Printf res.Results.length :: (printResults res.Results).1

/-- No event of the trace is a failure. -/
def FailureFree (tr : List Event) : Prop := ∀ ev ∈ tr, ev.isFailure = false

/-- A failure event, if the trace has one, is its last event. -/
def FailureLast : List Event → Prop
  | [] => True
  | ev :: rest => (ev.isFailure = true → rest = []) ∧ FailureLast rest

/-- How the trace of a query relates to what the query returned. -/
def QueryTrace {σ : Type} (run : Run σ (Except Error GetQueryResultsOutput)) : Prop :=
  match run.result with
  | none => FailureFree run.trace ∧ completed run.trace = []
  | some (.ok res) => FailureFree run.trace ∧ completed run.trace = [res]
  | some (.error _) => completed run.trace = [] ∧
      ∃ pre ev, run.trace = pre ++ [ev] ∧ FailureFree pre ∧ ev.isFailure = true

/-- Successive polls of query `queryId` from backend state `st` succeed and return
the responses `rs`, in this order, leaving the backend in state `st1`. -/
def PollsAnswer {σ : Type} (client : Client σ) (queryId : Option String) :
    List GetQueryResultsOutput → σ → σ → Prop
  | [], st, st1 => st1 = st
  | r :: rs, st, st1 =>
    ∃ st0, client.GetQueryResults ⟨queryId⟩ st = (.ok r, st0) ∧
      PollsAnswer client queryId rs st0 st1

/-- The message carried by a field: its value when the field is named `@message`. -/
def messageOf (field : ResultField) : Option String :=
  if field.Field = some "@message" then field.Value else none

/-- Reference sequence for the extraction: the values of the fields named `@message`,
in record order and, within a record, in field order. -/
def messageValues (results : List (List ResultField)) : List String :=
  results.flatMap fun record => record.filterMap messageOf

/-- Every field of every record has a name and a value (no nil pointer). -/
def WellFormed (results : List (List ResultField)) : Prop :=
  ∀ record ∈ results, ∀ field ∈ record, field.Field ≠ none ∧ field.Value ≠ none

/-- The match counts printed by `fmt.Printf("Results: %d\n", n)`, in order. -/
def matchCounts (tr : List Event) : List Nat :=
  tr.filterMap fun
    | .Printf n => some n
    | _ => none

/-- The submit requests sent to the backend, in order. -/
def submissions (tr : List Event) : List StartQueryInput :=
  tr.filterMap fun
    | .StartQuery input _ => some input
    | _ => none

/-! ## Example backends -/

/-- A backend on which every query completes at its first poll with no record. -/
def idleClient : Client Unit where
  StartQuery _ st := (.ok ⟨some "q"⟩, st)
  GetQueryResults _ st := (.ok ⟨[], QueryStatusComplete⟩, st)

/-- A backend that accepts every submission and answers the polls from a script, one
scripted response per poll; a poll beyond the script fails. -/
def replayClient : Client (List (Except Error GetQueryResultsOutput)) where
  StartQuery _ st := (.ok ⟨some "q"⟩, st)
  GetQueryResults _ st :=
    match st with
    | [] => (.error "no response", [])
    | r :: rest => (r, rest)

/-- Two records: one with a message field, one without. -/
def exampleRecords : List (List ResultField) :=
  [[⟨some "@timestamp", some "2024-01-01 00:00:00.000"⟩, ⟨some "@message", some "err: timeout"⟩],
    [⟨some "@logStream", some "stream-1"⟩]]

/-- A script in which the first query completes with `exampleRecords` and the second
is cancelled. -/
def cancelledScript : List (Except Error GetQueryResultsOutput) :=
  [.ok ⟨exampleRecords, QueryStatusComplete⟩, .ok ⟨[], QueryStatusCancelled⟩]

/-- A script in which the query is running at the first two polls and complete, with
`exampleRecords`, at the third. -/
def runningScript : List (Except Error GetQueryResultsOutput) :=
  [.ok ⟨[], QueryStatusRunning⟩, .ok ⟨[], QueryStatusRunning⟩,
    .ok ⟨exampleRecords, QueryStatusComplete⟩]

/-- The script of the running example on the range `[0, 130)`: the first and third
queries complete at once with no record; the second is running at two polls and then
complete with `exampleRecords`. -/
def exampleScript : List (Except Error GetQueryResultsOutput) :=
  [.ok ⟨[], QueryStatusComplete⟩, .ok ⟨[], QueryStatusRunning⟩, .ok ⟨[], QueryStatusRunning⟩,
    .ok ⟨exampleRecords, QueryStatusComplete⟩, .ok ⟨[], QueryStatusComplete⟩]

/-- A script in which the query is running at the first poll and the second poll
fails. -/
def throttledScript : List (Except Error GetQueryResultsOutput) :=
  [.ok ⟨[], QueryStatusRunning⟩, .error "throttled"]

/-- The range of the running example: `[0, 130)`. -/
def exampleParam : Param := ⟨"", "f", "g", 0, 130⟩

/-- A backend that rejects every submission. -/
def rejectingClient : Client Unit where
  StartQuery _ st := (.error "rejected", st)
  GetQueryResults _ st := (.ok ⟨[], QueryStatusComplete⟩, st)

/-- An empty range: start and end are both instant 0. -/
def emptyParam : Param := ⟨"", "f", "g", 0, 0⟩

/-- An inverted range: it ends at 5, before its start at 10. -/
def invertedParam : Param := ⟨"", "f", "g", 10, 5⟩

/-! ## Hypotheses and reference sequences used in the statements -/

/-- The first `n` queries that the window loop makes, entered at `start` in backend
state `st`, succeed: each `sendQuery` call of the run, for the window the loop computes
and in the backend state the run has reached, returns a result whose printing
dereferences no nil pointer.  Nothing is asked of windows the run does not submit or of
backend states it does not reach, and nothing once the loop has ended. -/
def RunQueriesSucceed {σ : Type} (client : Client σ) (pollFuel : Nat) (param : Param) :
    Nat → Int → σ → Prop
  | 0, _, _ => True
  | n + 1, start, st =>
    ∃ res,
      (App.sendQuery client pollFuel param.Filter param.LogGroup start
        (windowEnd param.EndTime start) st).result = some (.ok res) ∧
      (printResults res.Results).2 = true ∧
      (windowEnd param.EndTime start < param.EndTime →
        RunQueriesSucceed client pollFuel param n (windowEnd param.EndTime start)
          (App.sendQuery client pollFuel param.Filter param.LogGroup start
            (windowEnd param.EndTime start) st).state)

/-- Unix seconds of `0000-01-01 00:00:00` UTC, the earliest wall clock time that the
layout `20060102150405` can denote. -/
def firstWallClock : Int := -62167219200

/-- Unix seconds of `9999-12-31 23:59:59` UTC, the latest wall clock time that the
layout `20060102150405` can denote. -/
def lastWallClock : Int := 253402300799

/-- A margin for the offset of the zone `time.Local`, which shifts the Unix seconds of a
wall clock time; offsets in the zone database are 32-bit numbers of seconds. -/
def maxZoneShift : Int := 4294967296

/-- The instants that `param.StartTime()` and `param.EndTime()` can return (lines
25-32): `time.ParseInLocation` with the layout `20060102150405` yields a wall clock time
of the years 0000 to 9999 in the zone `time.Local`, and for a string that does not parse
the zero `Time`, whose Unix seconds are `-62135596800`. -/
def ParsedInstant (t : Int) : Prop :=
  firstWallClock - maxZoneShift ≤ t ∧ t ≤ lastWallClock + maxZoneShift

instance (t : Int) : Decidable (ParsedInstant t) := by
  unfold ParsedInstant
  infer_instance

/-- The first `n` windows of width at most 60 cut from `start` towards `endTime`. -/
def planFrom (endTime : Int) : Nat → Int → List (Int × Int)
  | 0, _ => []
  | n + 1, start => (start, min (start + 60) endTime) :: planFrom endTime n (start + 60)

/-- The partition property of a window sequence `ws` over the range from `s` to `e`:
the first window starts at `s`, each window starts where the previous one ended, the
last window ends at `e`, and the widths add up to `e - s`. -/
def IsPartition (s e : Int) (ws : List (Int × Int)) : Prop :=
  ws.head?.map Prod.fst = some s ∧ List.Chain' (fun u v => u.2 = v.1) ws ∧
    ws.getLast?.map Prod.snd = some e ∧ (ws.map fun w => w.2 - w.1).sum = e - s

instance (s e : Int) (ws : List (Int × Int)) : Decidable (IsPartition s e ws) := by
  unfold IsPartition
  infer_instance

/-! ## Basic facts -/

theorem wrapInt64_of_inRange (x : Int) (hlo : minInt64 ≤ x) (hhi : x ≤ maxInt64) :
    wrapInt64 x = x := by
  unfold wrapInt64
  unfold minInt64 at hlo
  unfold maxInt64 at hhi
  omega

theorem windowEnd_of_inRange (endTime start : Int) (hlo : minInt64 ≤ start)
    (hhi : start + 60 ≤ maxInt64) : windowEnd endTime start = min (start + 60) endTime := by
  have hw : wrapInt64 (start + 60) = start + 60 :=
    wrapInt64_of_inRange _ (by unfold minInt64 at *; omega) hhi
  unfold windowEnd
  simp only [hw]
  split <;> omega

theorem windows_append (a b : List Event) : windows (a ++ b) = windows a ++ windows b := by
  simp [windows, List.filterMap_append]

theorem stdout_append (a b : List Event) : stdout (a ++ b) = stdout a ++ stdout b := by
  simp [stdout, List.filter_append]

theorem completed_append (a b : List Event) :
    completed (a ++ b) = completed a ++ completed b := by
  simp [completed, List.filterMap_append]

theorem windows_pollLoop {σ : Type} (client : Client σ) (queryId : Option String) (fuel : Nat)
    (st : σ) : windows (pollLoop client queryId fuel st).trace = [] := by
  induction fuel generalizing st with
  | zero => rfl
  | succ n ih =>
    unfold pollLoop
    split
    · rfl
    · split
      · simpa [windows] using ih _
      · split <;> rfl

theorem stdout_pollLoop {σ : Type} (client : Client σ) (queryId : Option String) (fuel : Nat)
    (st : σ) : stdout (pollLoop client queryId fuel st).trace = [] := by
  induction fuel generalizing st with
  | zero => rfl
  | succ n ih =>
    unfold pollLoop
    split
    · rfl
    · split
      · simpa [stdout] using ih _
      · split <;> rfl

theorem windows_sendQuery {σ : Type} (client : Client σ) (pollFuel : Nat)
    (filter logGroup : String) (start end_ : Int) (st : σ) :
    windows (App.sendQuery client pollFuel filter logGroup start end_ st).trace
      = [(start, end_)] := by
  unfold App.sendQuery
  dsimp only
  split
  · rfl
  · simpa [windows] using windows_pollLoop client _ pollFuel _

theorem stdout_sendQuery {σ : Type} (client : Client σ) (pollFuel : Nat)
    (filter logGroup : String) (start end_ : Int) (st : σ) :
    stdout (App.sendQuery client pollFuel filter logGroup start end_ st).trace = [] := by
  unfold App.sendQuery
  dsimp only
  split
  · rfl
  · simpa [stdout] using stdout_pollLoop client _ pollFuel _

theorem windows_printFields (fields : List ResultField) :
    windows (printFields fields).1 = [] := by
  induction fields with
  | nil => rfl
  | cons f rest ih =>
    unfold printFields
    split
    · rfl
    · split
      · split
        · rfl
        · simpa [windows] using ih
      · exact ih

theorem windows_printResults (results : List (List ResultField)) :
    windows (printResults results).1 = [] := by
  induction results with
  | nil => rfl
  | cons r rest ih =>
    unfold printResults
    have h := windows_printFields r
    split
    · rename_i out heq
      rw [heq] at h
      exact h
    · rename_i out heq
      rw [heq] at h
      simp [windows_append, h, ih]

/-! ## One iteration of the window loop -/

theorem windowLoop_of_error {σ : Type} (client : Client σ) (pollFuel : Nat) (param : Param)
    (fuel : Nat) (start : Int) (st : σ) (err : Error)
    (h : (App.sendQuery client pollFuel param.Filter param.LogGroup start
      (windowEnd param.EndTime start) st).result = some (.error err)) :
    windowLoop client pollFuel param (fuel + 1) start st =
      ⟨(App.sendQuery client pollFuel param.Filter param.LogGroup start
          (windowEnd param.EndTime start) st).state,
        (App.sendQuery client pollFuel param.Filter param.LogGroup start
          (windowEnd param.EndTime start) st).trace, some (.returned none)⟩ := by
  simp only [windowLoop, h]

theorem windowLoop_of_last {σ : Type} (client : Client σ) (pollFuel : Nat) (param : Param)
    (fuel : Nat) (start : Int) (st : σ) (res : GetQueryResultsOutput)
    (h : (App.sendQuery client pollFuel param.Filter param.LogGroup start
      (windowEnd param.EndTime start) st).result = some (.ok res))
    (hp : (printResults res.Results).2 = true)
    (hend : windowEnd param.EndTime start ≥ param.EndTime) :
    windowLoop client pollFuel param (fuel + 1) start st =
      ⟨(App.sendQuery client pollFuel param.Filter param.LogGroup start
          (windowEnd param.EndTime start) st).state,
        (App.sendQuery client pollFuel param.Filter param.LogGroup start
          (windowEnd param.EndTime start) st).trace
          ++ .Printf res.Results.length :: (printResults res.Results).1,
        some (.returned none)⟩ := by
  simp [windowLoop, h, hp, hend]

theorem windowLoop_of_next {σ : Type} (client : Client σ) (pollFuel : Nat) (param : Param)
    (fuel : Nat) (start : Int) (st : σ) (res : GetQueryResultsOutput)
    (h : (App.sendQuery client pollFuel param.Filter param.LogGroup start
      (windowEnd param.EndTime start) st).result = some (.ok res))
    (hp : (printResults res.Results).2 = true)
    (hend : windowEnd param.EndTime start < param.EndTime) :
    windowLoop client pollFuel param (fuel + 1) start st =
      ⟨(windowLoop client pollFuel param fuel (windowEnd param.EndTime start)
          (App.sendQuery client pollFuel param.Filter param.LogGroup start
            (windowEnd param.EndTime start) st).state).state,
        ((App.sendQuery client pollFuel param.Filter param.LogGroup start
          (windowEnd param.EndTime start) st).trace
          ++ .Printf res.Results.length :: (printResults res.Results).1)
          ++ (windowLoop client pollFuel param fuel (windowEnd param.EndTime start)
          (App.sendQuery client pollFuel param.Filter param.LogGroup start
            (windowEnd param.EndTime start) st).state).trace,
        (windowLoop client pollFuel param fuel (windowEnd param.EndTime start)
          (App.sendQuery client pollFuel param.Filter param.LogGroup start
            (windowEnd param.EndTime start) st).state).result⟩ := by
  have hn : ¬ windowEnd param.EndTime start ≥ param.EndTime := by omega
  simp [windowLoop, h, hp, hn]

theorem windowLoop_of_none {σ : Type} (client : Client σ) (pollFuel : Nat) (param : Param)
    (fuel : Nat) (start : Int) (st : σ)
    (h : (App.sendQuery client pollFuel param.Filter param.LogGroup start
      (windowEnd param.EndTime start) st).result = none) :
    windowLoop client pollFuel param (fuel + 1) start st =
      ⟨(App.sendQuery client pollFuel param.Filter param.LogGroup start
          (windowEnd param.EndTime start) st).state,
        (App.sendQuery client pollFuel param.Filter param.LogGroup start
          (windowEnd param.EndTime start) st).trace, none⟩ := by
  simp only [windowLoop, h]

theorem windowLoop_of_panic {σ : Type} (client : Client σ) (pollFuel : Nat) (param : Param)
    (fuel : Nat) (start : Int) (st : σ) (res : GetQueryResultsOutput)
    (h : (App.sendQuery client pollFuel param.Filter param.LogGroup start
      (windowEnd param.EndTime start) st).result = some (.ok res))
    (hp : (printResults res.Results).2 = false) :
    windowLoop client pollFuel param (fuel + 1) start st =
      ⟨(App.sendQuery client pollFuel param.Filter param.LogGroup start
          (windowEnd param.EndTime start) st).state,
        (App.sendQuery client pollFuel param.Filter param.LogGroup start
          (windowEnd param.EndTime start) st).trace
          ++ .Printf res.Results.length :: (printResults res.Results).1,
        some .panicked⟩ := by
  simp [windowLoop, h, hp]

/-- The windows of a run of the loop: the current window, followed, when the loop
goes round again, by the windows of the rest of the run, which starts where the
current window ended, strictly before the end instant. -/
theorem windows_windowLoop_succ {σ : Type} (client : Client σ) (pollFuel : Nat) (param : Param)
    (fuel : Nat) (start : Int) (st : σ) :
    windows (windowLoop client pollFuel param (fuel + 1) start st).trace
        = [(start, windowEnd param.EndTime start)] ∨
    (windowEnd param.EndTime start < param.EndTime ∧ ∃ st1,
      windows (windowLoop client pollFuel param (fuel + 1) start st).trace
        = (start, windowEnd param.EndTime start) ::
          windows (windowLoop client pollFuel param fuel (windowEnd param.EndTime start) st1).trace) := by
  have hq := windows_sendQuery client pollFuel param.Filter param.LogGroup start
    (windowEnd param.EndTime start) st
  have hpr : ∀ res : GetQueryResultsOutput,
      windows (Event.Printf res.Results.length :: (printResults res.Results).1) = [] := by
    intro res
    simpa [windows] using windows_printResults res.Results
  cases hres : (App.sendQuery client pollFuel param.Filter param.LogGroup start
      (windowEnd param.EndTime start) st).result with
  | none =>
    left
    rw [windowLoop_of_none client pollFuel param fuel start st hres]
    exact hq
  | some r =>
    cases r with
    | error err =>
      left
      rw [windowLoop_of_error client pollFuel param fuel start st err hres]
      exact hq
    | ok res =>
      cases hp : (printResults res.Results).2 with
      | false =>
        left
        rw [windowLoop_of_panic client pollFuel param fuel start st res hres hp]
        simp only [windows_append, hq, hpr, List.append_nil]
      | true =>
        by_cases hend : windowEnd param.EndTime start ≥ param.EndTime
        · left
          rw [windowLoop_of_last client pollFuel param fuel start st res hres hp hend]
          simp only [windows_append, hq, hpr, List.append_nil]
        · right
          refine ⟨by omega, (App.sendQuery client pollFuel param.Filter param.LogGroup start
            (windowEnd param.EndTime start) st).state, ?_⟩
          rw [windowLoop_of_next client pollFuel param fuel start st res hres hp (by omega)]
          simp only [windows_append, hq, hpr, List.append_nil]
          rfl

/-! ## The planned windows -/

theorem windowLoop_plan {σ : Type} (client : Client σ) (pollFuel : Nat) (param : Param) :
    ∀ (n : Nat) (start : Int) (st : σ) (fuel : Nat), n + 1 ≤ fuel → minInt64 ≤ start →
      start + 60 * (n + 1) ≤ maxInt64 → param.EndTime ≤ start + 60 * (n + 1) →
      (n = 0 ∨ start + 60 * n < param.EndTime) →
      RunQueriesSucceed client pollFuel param (n + 1) start st →
      (windowLoop client pollFuel param fuel start st).result = some (.returned none) ∧
      windows (windowLoop client pollFuel param fuel start st).trace
        = planFrom param.EndTime (n + 1) start := by
  intro n
  induction n with
  | zero =>
    intro start st fuel hf hlo hhi he _ hq
    obtain ⟨f, rfl⟩ : ∃ f, fuel = f + 1 := ⟨fuel - 1, by omega⟩
    obtain ⟨res, hr, hp, _⟩ := hq
    have hwe := windowEnd_of_inRange param.EndTime start hlo (by omega)
    have hend : windowEnd param.EndTime start ≥ param.EndTime := by
      rw [hwe]; omega
    rw [windowLoop_of_last client pollFuel param f start st res hr hp hend]
    refine ⟨rfl, ?_⟩
    simp only [windows_append, windows_sendQuery, planFrom, hwe]
    simp [windows, windows_printResults res.Results]
    simpa [windows] using windows_printResults res.Results
  | succ n ih =>
    intro start st fuel hf hlo hhi he hlt hq
    obtain ⟨f, rfl⟩ : ∃ f, fuel = f + 1 := ⟨fuel - 1, by omega⟩
    obtain ⟨res, hr, hp, hnext⟩ := hq
    have hwe := windowEnd_of_inRange param.EndTime start hlo (by omega)
    have hlt2 : start + 60 * ((n : Int) + 1) < param.EndTime := by
      rcases hlt with h0 | h1
      · omega
      · push_cast at h1; exact h1
    have hmin : min (start + 60) param.EndTime = start + 60 := by omega
    have hend : windowEnd param.EndTime start < param.EndTime := by
      rw [hwe]; omega
    have hwe2 : windowEnd param.EndTime start = start + 60 := by rw [hwe, hmin]
    rw [windowLoop_of_next client pollFuel param f start st res hr hp hend]
    have h := ih (windowEnd param.EndTime start)
      (App.sendQuery client pollFuel param.Filter param.LogGroup start
        (windowEnd param.EndTime start) st).state f (by omega) (by omega)
      (by push_cast at hhi ⊢; omega) (by push_cast at he ⊢; omega)
      (by omega) (hnext hend)
    refine ⟨h.1, ?_⟩
    simp only [windows_append, windows_sendQuery, h.2]
    have hpr : windows (Event.Printf res.Results.length :: (printResults res.Results).1) = [] := by
      simpa [windows] using windows_printResults res.Results
    rw [hpr, hwe2]
    simp [planFrom, hmin]

theorem planFrom_length (e : Int) (n : Nat) (a : Int) : (planFrom e n a).length = n := by
  induction n generalizing a with
  | zero => rfl
  | succ n ih => simp [planFrom, ih]

theorem planFrom_isPartition (e : Int) :
    ∀ (n : Nat) (a : Int), e ≤ a + 60 * (n + 1) → (n = 0 ∨ a + 60 * n < e) →
      IsPartition a e (planFrom e (n + 1) a) := by
  intro n
  induction n with
  | zero =>
    intro a he _
    have hmin : min (a + 60) e = e := by omega
    simp [planFrom, IsPartition, hmin]
  | succ n ih =>
    intro a he hlt
    have hlt2 : a + 60 * ((n : Int) + 1) < e := by
      rcases hlt with h0 | h1
      · omega
      · push_cast at h1; exact h1
    have hmin : min (a + 60) e = a + 60 := by omega
    obtain ⟨_, h2, h3, h4⟩ := ih (a + 60) (by push_cast at he ⊢; omega) (by omega)
    have hunf : planFrom e (n + 1 + 1) a = (a, a + 60) :: planFrom e (n + 1) (a + 60) := by
      simp [planFrom, hmin]
    have hcons : planFrom e (n + 1) (a + 60)
        = (a + 60, min (a + 60 + 60) e) :: planFrom e n (a + 60 + 60) := rfl
    rw [hunf]
    refine ⟨rfl, ?_, ?_, ?_⟩
    · rw [hcons] at h2 ⊢
      exact List.Chain'.cons rfl h2
    · rw [hcons] at h3 ⊢
      rw [List.getLast?_cons_cons]
      exact h3
    · rw [List.map_cons, List.sum_cons, h4]
      ring

/-! ## Example runs -/

theorem sendQuery_idleClient (filter logGroup : String) (start end_ : Int) :
    (App.sendQuery idleClient 1 filter logGroup start end_ ()).result
      = some (.ok ⟨[], QueryStatusComplete⟩) := by
  rfl

theorem runQueriesSucceed_idleClient (param : Param) :
    ∀ (n : Nat) (start : Int) (st : Unit), RunQueriesSucceed idleClient 1 param n start st := by
  intro n
  induction n with
  | zero => intro _ _; trivial
  | succ n ih =>
    intro start st
    exact ⟨⟨[], QueryStatusComplete⟩, sendQuery_idleClient _ _ _ _, rfl, fun _ => ih _ _⟩

/-- The run of the running example: on the range `[0, 130)` the three queries that the
loop makes against `exampleScript` succeed. -/
theorem runQueriesSucceed_exampleScript :
    ∀ n : Nat, RunQueriesSucceed replayClient 5 exampleParam n exampleParam.StartTime
      exampleScript := by
  intro n
  match n with
  | 0 => trivial
  | n + 1 =>
    refine ⟨⟨[], QueryStatusComplete⟩, rfl, rfl, fun _ => ?_⟩
    match n with
    | 0 => trivial
    | n + 1 =>
      refine ⟨⟨exampleRecords, QueryStatusComplete⟩, rfl, rfl, fun _ => ?_⟩
      match n with
      | 0 => trivial
      | n + 1 =>
        exact ⟨⟨[], QueryStatusComplete⟩, rfl, rfl, fun h => absurd h (by decide)⟩

/-! ## Runs in which every query succeeds -/

/-- An instant that the timestamp parse can return is an `int64` far from both ends of
the type. -/
theorem int64_of_parsedInstant (t : Int) (h : ParsedInstant t) :
    minInt64 ≤ t ∧ t + 60 ≤ maxInt64 := by
  unfold ParsedInstant firstWallClock lastWallClock maxZoneShift at h
  unfold minInt64 maxInt64
  omega

/-- When no `start + 60` that the loop computes overflows and the queries of the run
succeed, a run with enough fuel returns after submitting the planned windows. -/
theorem execute_runs_plan {σ : Type} (client : Client σ) (pollFuel : Nat) (param : Param)
    (st : σ) (fuel : Nat) (hlo : minInt64 ≤ param.StartTime)
    (hov : param.StartTime
      + 60 * ((((param.EndTime - param.StartTime - 1) / 60).toNat : Nat) + 1) ≤ maxInt64)
    (hq : RunQueriesSucceed client pollFuel param
      (((param.EndTime - param.StartTime - 1) / 60).toNat + 1) param.StartTime st)
    (hf : ((param.EndTime - param.StartTime - 1) / 60).toNat + 1 ≤ fuel) :
    (App.Execute (.ok ()) client pollFuel fuel param st).result = some (.returned none) ∧
    windows (App.Execute (.ok ()) client pollFuel fuel param st).trace
      = planFrom param.EndTime (((param.EndTime - param.StartTime - 1) / 60).toNat + 1)
          param.StartTime := by
  have hn : ((((param.EndTime - param.StartTime - 1) / 60).toNat : Nat) : Int)
      = max ((param.EndTime - param.StartTime - 1) / 60) 0 := by omega
  exact windowLoop_plan client pollFuel param
    ((param.EndTime - param.StartTime - 1) / 60).toNat param.StartTime st fuel hf hlo
    hov (by omega) (by omega) hq

/-! ## C1: partition property -/

/-- C1: for every start `s` and end `e` that `StartTime()` and `EndTime()` can return
(so `s + 60` does not overflow `int64`) with `s ≤ e`, in a run where every query
succeeds, `Execute` returns (with enough fuel) and the windows it submitted start at
`s`, are contiguous, end at `e` and have widths adding up to `e - s`. -/
theorem execute_windows_partition {σ : Type} (client : Client σ) (pollFuel : Nat)
    (param : Param) (st : σ) (hs : ParsedInstant param.StartTime)
    (he : ParsedInstant param.EndTime) (hle : param.StartTime ≤ param.EndTime)
    (hq : ∀ n, RunQueriesSucceed client pollFuel param n param.StartTime st) :
    ∃ fuel0, ∀ fuel, fuel0 ≤ fuel →
      (App.Execute (.ok ()) client pollFuel fuel param st).result = some (.returned none) ∧
      IsPartition param.StartTime param.EndTime
        (windows (App.Execute (.ok ()) client pollFuel fuel param st).trace) := by
  refine ⟨((param.EndTime - param.StartTime - 1) / 60).toNat + 1, fun fuel hf => ?_⟩
  have hs' := int64_of_parsedInstant _ hs
  have he' := int64_of_parsedInstant _ he
  have hn : ((((param.EndTime - param.StartTime - 1) / 60).toNat : Nat) : Int)
      = max ((param.EndTime - param.StartTime - 1) / 60) 0 := by omega
  obtain ⟨h1, h2⟩ := execute_runs_plan client pollFuel param st fuel hs'.1 (by omega)
    (hq _) hf
  refine ⟨h1, ?_⟩
  rw [h2]
  exact planFrom_isPartition _ _ _ (by omega) (by omega)

/-- C1, witness: the run of the running example, the range `[0, 130)` against
`exampleScript`, submits the windows `[0,60) [60,120) [120,130)`. -/
theorem execute_windows_partition_witness :
    windows (App.Execute (.ok ()) replayClient 5 3 exampleParam exampleScript).trace
        = [(0, 60), (60, 120), (120, 130)] ∧
    ∃ fuel0, ∀ fuel, fuel0 ≤ fuel →
      (App.Execute (.ok ()) replayClient 5 fuel exampleParam exampleScript).result
        = some (.returned none) ∧
      IsPartition 0 130
        (windows (App.Execute (.ok ()) replayClient 5 fuel exampleParam exampleScript).trace) :=
  ⟨by decide, execute_windows_partition replayClient 5 exampleParam exampleScript (by decide)
    (by decide) (by decide) runQueriesSucceed_exampleScript⟩

/-! ## C2: window count -/

theorem ceil_div_sixty (d k : Int) (h1 : 60 * (k - 1) < d) (h2 : d ≤ 60 * k) :
    ⌈((d : Int) : ℚ) / 60⌉ = k := by
  rw [Int.ceil_eq_iff]
  constructor
  · rw [lt_div_iff₀ (by norm_num : (0 : ℚ) < 60)]
    have : ((60 * (k - 1) : Int) : ℚ) < (d : ℚ) := by exact_mod_cast h1
    push_cast at this
    linarith
  · rw [div_le_iff₀ (by norm_num : (0 : ℚ) < 60)]
    have : ((d : Int) : ℚ) ≤ ((60 * k : Int) : ℚ) := by exact_mod_cast h2
    push_cast at this
    linarith

/-- C2: for every `s < e` that `StartTime()` and `EndTime()` can return, in a run where
every query succeeds, the window loop terminates (enough fuel makes `Execute` return)
and submits exactly `ceil((e - s) / 60)` windows. -/
theorem execute_window_count {σ : Type} (client : Client σ) (pollFuel : Nat)
    (param : Param) (st : σ) (hs : ParsedInstant param.StartTime)
    (he : ParsedInstant param.EndTime) (hlt : param.StartTime < param.EndTime)
    (hq : ∀ n, RunQueriesSucceed client pollFuel param n param.StartTime st) :
    ∃ fuel0, ∀ fuel, fuel0 ≤ fuel →
      (App.Execute (.ok ()) client pollFuel fuel param st).result = some (.returned none) ∧
      ((windows (App.Execute (.ok ()) client pollFuel fuel param st).trace).length : Int)
        = ⌈((param.EndTime - param.StartTime : Int) : ℚ) / 60⌉ := by
  refine ⟨((param.EndTime - param.StartTime - 1) / 60).toNat + 1, fun fuel hf => ?_⟩
  have hs' := int64_of_parsedInstant _ hs
  have he' := int64_of_parsedInstant _ he
  have hn : ((((param.EndTime - param.StartTime - 1) / 60).toNat : Nat) : Int)
      = (param.EndTime - param.StartTime - 1) / 60 := by omega
  obtain ⟨h1, h2⟩ := execute_runs_plan client pollFuel param st fuel hs'.1 (by omega)
    (hq _) hf
  refine ⟨h1, ?_⟩
  rw [h2, planFrom_length]
  symm
  apply ceil_div_sixty
  · push_cast; omega
  · push_cast; omega

/-- C2, witness: the range `[0, 130)` takes `ceil(130 / 60) = 3` windows. -/
theorem execute_window_count_witness :
    (windows (App.Execute (.ok ()) idleClient 1 3 exampleParam ()).trace).length = 3 ∧
    ∃ fuel0, ∀ fuel, fuel0 ≤ fuel →
      (App.Execute (.ok ()) idleClient 1 fuel exampleParam ()).result
        = some (.returned none) ∧
      ((windows (App.Execute (.ok ()) idleClient 1 fuel exampleParam ()).trace).length : Int)
        = ⌈((exampleParam.EndTime - exampleParam.StartTime : Int) : ℚ) / 60⌉ :=
  ⟨by decide, execute_window_count idleClient 1 exampleParam () (by decide) (by decide)
    (by decide) (fun n => runQueriesSucceed_idleClient exampleParam n _ _)⟩

/-! ## C3: window bounds -/

theorem windowLoop_window_bounds {σ : Type} (client : Client σ) (pollFuel : Nat) (param : Param)
    (hlo : minInt64 ≤ param.StartTime) (hhi : param.EndTime + 60 ≤ maxInt64) :
    ∀ (fuel : Nat) (start : Int) (st : σ), param.StartTime ≤ start → start < param.EndTime →
      ∀ w ∈ windows (windowLoop client pollFuel param fuel start st).trace,
        w.2 - w.1 = min 60 (param.EndTime - w.1) ∧ 0 < w.2 - w.1 ∧ w.2 - w.1 ≤ 60 ∧
          param.StartTime ≤ w.1 ∧ w.1 < w.2 ∧ w.2 ≤ param.EndTime := by
  intro fuel
  induction fuel with
  | zero => intro start st _ _ w hw; simp [windowLoop, windows] at hw
  | succ n ih =>
    intro start st hs he w hw
    have hwe := windowEnd_of_inRange param.EndTime start (by omega) (by omega)
    have hcur : ∀ u : Int × Int, u = (start, windowEnd param.EndTime start) →
        u.2 - u.1 = min 60 (param.EndTime - u.1) ∧ 0 < u.2 - u.1 ∧ u.2 - u.1 ≤ 60 ∧
          param.StartTime ≤ u.1 ∧ u.1 < u.2 ∧ u.2 ≤ param.EndTime := by
      intro u hu
      subst hu
      simp only [hwe]
      omega
    rcases windows_windowLoop_succ client pollFuel param n start st with h | ⟨hlt, st1, h⟩
    · rw [h] at hw
      exact hcur w (by simpa using hw)
    · rw [h] at hw
      rcases List.mem_cons.mp hw with hw1 | hw2
      · exact hcur w hw1
      · exact ih (windowEnd param.EndTime start) st1 (by rw [hwe]; omega) hlt w hw2

/-- C3: for every `s < e` that `StartTime()` and `EndTime()` can return, every window
`(start_i, end_i)` that `Execute` passes to `sendQuery`, in any run and on any
backend, has width `min(60, e - start_i)`, hence `0 < end_i - start_i ≤ 60`, and lies
inside the range: `s ≤ start_i < end_i ≤ e`. -/
theorem execute_window_bounds {σ : Type} (cfg : Except Error Unit) (client : Client σ)
    (pollFuel fuel : Nat) (param : Param) (st : σ) (hs : ParsedInstant param.StartTime)
    (he : ParsedInstant param.EndTime) (hlt : param.StartTime < param.EndTime) :
    ∀ w ∈ windows (App.Execute cfg client pollFuel fuel param st).trace,
      w.2 - w.1 = min 60 (param.EndTime - w.1) ∧ 0 < w.2 - w.1 ∧ w.2 - w.1 ≤ 60 ∧
        param.StartTime ≤ w.1 ∧ w.1 < w.2 ∧ w.2 ≤ param.EndTime := by
  cases cfg with
  | error err => intro w hw; simp [App.Execute, windows] at hw
  | ok u =>
    exact windowLoop_window_bounds client pollFuel param (int64_of_parsedInstant _ hs).1
      (int64_of_parsedInstant _ he).2 fuel param.StartTime st le_rfl hlt

/-- C3, witness: the three windows of the range `[0, 130)`. -/
theorem execute_window_bounds_witness :
    windows (App.Execute (.ok ()) idleClient 1 3 exampleParam ()).trace
        = [(0, 60), (60, 120), (120, 130)] ∧
    ∀ w ∈ windows (App.Execute (.ok ()) idleClient 1 3 exampleParam ()).trace,
      w.2 - w.1 = min 60 (exampleParam.EndTime - w.1) ∧ 0 < w.2 - w.1 ∧ w.2 - w.1 ≤ 60 ∧
        exampleParam.StartTime ≤ w.1 ∧ w.1 < w.2 ∧ w.2 ≤ exampleParam.EndTime :=
  ⟨by decide, execute_window_bounds (.ok ()) idleClient 1 3 exampleParam () (by decide)
    (by decide) (by decide)⟩

/-! ## C4, C5: ranges of no or negative width -/

/-- When the end instant is not after `start`, the loop body runs exactly once, with
the window from `start` to the end instant. -/
theorem windows_windowLoop_of_end_le {σ : Type} (client : Client σ) (pollFuel : Nat)
    (param : Param) (fuel : Nat) (start : Int) (st : σ) (hlo : minInt64 ≤ start)
    (hhi : start + 60 ≤ maxInt64) (hle : param.EndTime ≤ start) :
    windows (windowLoop client pollFuel param (fuel + 1) start st).trace
      = [(start, param.EndTime)] := by
  have hwe : windowEnd param.EndTime start = param.EndTime := by
    rw [windowEnd_of_inRange param.EndTime start hlo hhi]
    omega
  rcases windows_windowLoop_succ client pollFuel param fuel start st with h | ⟨hlt, _, _⟩
  · rw [h, hwe]
  · omega

/-- The window loop never makes `Execute` return a non-nil error. -/
theorem windowLoop_never_returns_error {σ : Type} (client : Client σ) (pollFuel : Nat)
    (param : Param) :
    ∀ (fuel : Nat) (start : Int) (st : σ) (err : Error),
      (windowLoop client pollFuel param fuel start st).result ≠ some (.returned (some err)) := by
  intro fuel
  induction fuel with
  | zero => intro start st err; simp [windowLoop]
  | succ n ih =>
    intro start st err
    cases hres : (App.sendQuery client pollFuel param.Filter param.LogGroup start
        (windowEnd param.EndTime start) st).result with
    | none =>
      rw [windowLoop_of_none client pollFuel param n start st hres]
      simp
    | some r =>
      cases r with
      | error e =>
        rw [windowLoop_of_error client pollFuel param n start st e hres]
        simp
      | ok res =>
        cases hp : (printResults res.Results).2 with
        | false =>
          rw [windowLoop_of_panic client pollFuel param n start st res hres hp]
          simp
        | true =>
          by_cases hend : windowEnd param.EndTime start ≥ param.EndTime
          · rw [windowLoop_of_last client pollFuel param n start st res hres hp hend]
            simp
          · rw [windowLoop_of_next client pollFuel param n start st res hres hp (by omega)]
            exact ih _ _ err

/-- C4, amended: if the start instant equals the end instant (`s = e`, with `s + 60`
not overflowing `int64`), the loop body still runs once: on any backend `Execute`
submits exactly one window, the zero-width window `(s, s)`. -/
theorem execute_empty_range_submits_one_window {σ : Type} (client : Client σ)
    (pollFuel fuel : Nat) (param : Param) (st : σ) (hfuel : 0 < fuel)
    (hlo : minInt64 ≤ param.StartTime) (hhi : param.StartTime + 60 ≤ maxInt64)
    (heq : param.StartTime = param.EndTime) :
    windows (App.Execute (.ok ()) client pollFuel fuel param st).trace
      = [(param.StartTime, param.StartTime)] := by
  obtain ⟨f, rfl⟩ : ∃ f, fuel = f + 1 := ⟨fuel - 1, by omega⟩
  have h := windows_windowLoop_of_end_le client pollFuel param f param.StartTime st hlo hhi
    (by omega)
  rw [← heq] at h
  exact h

/-- C4, witness: the empty range at instant 0. -/
theorem execute_empty_range_submits_one_window_witness :
    windows (App.Execute (.ok ()) idleClient 1 1 emptyParam ()).trace
      = [(emptyParam.StartTime, emptyParam.StartTime)] :=
  execute_empty_range_submits_one_window idleClient 1 1 emptyParam () (by decide) (by decide)
    (by decide) (by decide)

/-- C4 as stated fails: on the empty range `s = e = 0` the run returns after
submitting the zero-width window `(0, 0)`; its window sequence is not empty. -/
theorem empty_range_submits_a_window :
    emptyParam.StartTime = emptyParam.EndTime ∧
    (App.Execute (.ok ()) idleClient 1 1 emptyParam ()).result = some (.returned none) ∧
    windows (App.Execute (.ok ()) idleClient 1 1 emptyParam ()).trace = [(0, 0)] ∧
    windows (App.Execute (.ok ()) idleClient 1 1 emptyParam ()).trace ≠ [] := by
  decide

/-- C5, amended: for every `s`, `e` with `e < s` (and `s + 60` not overflowing
`int64`), `Execute` checks nothing about the range: on any backend it submits exactly
one window, `(s, e)`, to `sendQuery`, and when that query succeeds it returns `nil`. -/
theorem execute_inverted_range_submits_one_window {σ : Type} (client : Client σ)
    (pollFuel fuel : Nat) (param : Param) (st : σ) (hfuel : 0 < fuel)
    (hlo : minInt64 ≤ param.StartTime) (hhi : param.StartTime + 60 ≤ maxInt64)
    (hlt : param.EndTime < param.StartTime) :
    windows (App.Execute (.ok ()) client pollFuel fuel param st).trace
        = [(param.StartTime, param.EndTime)] ∧
    ∀ res, (App.sendQuery client pollFuel param.Filter param.LogGroup param.StartTime
        param.EndTime st).result = some (.ok res) → (printResults res.Results).2 = true →
      (App.Execute (.ok ()) client pollFuel fuel param st).result = some (.returned none) := by
  obtain ⟨f, rfl⟩ : ∃ f, fuel = f + 1 := ⟨fuel - 1, by omega⟩
  refine ⟨windows_windowLoop_of_end_le client pollFuel param f param.StartTime st hlo hhi
    (by omega), fun res hres hp => ?_⟩
  have hwe : windowEnd param.EndTime param.StartTime = param.EndTime := by
    rw [windowEnd_of_inRange param.EndTime param.StartTime hlo hhi]
    omega
  rw [← hwe] at hres
  show (windowLoop client pollFuel param (f + 1) param.StartTime st).result = _
  rw [windowLoop_of_last client pollFuel param f param.StartTime st res hres hp (by omega)]

/-- C5, witness: the inverted range from 10 to 5. -/
theorem execute_inverted_range_submits_one_window_witness :
    windows (App.Execute (.ok ()) idleClient 1 1 invertedParam ()).trace
        = [(invertedParam.StartTime, invertedParam.EndTime)] ∧
    ∀ res, (App.sendQuery idleClient 1 invertedParam.Filter invertedParam.LogGroup
        invertedParam.StartTime invertedParam.EndTime ()).result = some (.ok res) →
      (printResults res.Results).2 = true →
      (App.Execute (.ok ()) idleClient 1 1 invertedParam ()).result = some (.returned none) :=
  execute_inverted_range_submits_one_window idleClient 1 1 invertedParam () (by decide)
    (by decide) (by decide) (by decide)

/-- C5 as stated fails: on the inverted range `s = 10`, `e = 5` the run submits the
window `(10, 5)` to the backend and returns `nil`, not an error. -/
theorem inverted_range_is_queried :
    invertedParam.EndTime < invertedParam.StartTime ∧
    (App.Execute (.ok ()) idleClient 1 1 invertedParam ()).result = some (.returned none) ∧
    windows (App.Execute (.ok ()) idleClient 1 1 invertedParam ()).trace = [(10, 5)] := by
  decide

/-! ## C6: errors of `sendQuery` -/

/-- C6, the code at the failing input: on a backend that rejects the submission,
`sendQuery` returns the error `rejected` for the first window and `Execute` returns
`nil`. -/
theorem execute_swallows_sendQuery_error :
    (App.sendQuery rejectingClient 1 exampleParam.Filter exampleParam.LogGroup 0 60 ()).result
      = some (.error "rejected") ∧
    (App.Execute (.ok ()) rejectingClient 1 3 exampleParam ()).result
      = some (.returned none) ∧
    windows (App.Execute (.ok ()) rejectingClient 1 3 exampleParam ()).trace = [(0, 60)] :=
  ⟨rfl, by decide, by decide⟩

/-! ## Failures and completed queries in a trace -/

theorem failureFree_nil : FailureFree [] := by
  intro ev hev
  simp at hev

theorem failureFree_cons (ev : Event) (tr : List Event) (h1 : ev.isFailure = false)
    (h2 : FailureFree tr) : FailureFree (ev :: tr) := by
  intro x hx
  rcases List.mem_cons.mp hx with rfl | hx
  · exact h1
  · exact h2 x hx

theorem failureFree_append (a b : List Event) (ha : FailureFree a) (hb : FailureFree b) :
    FailureFree (a ++ b) := by
  intro x hx
  rcases List.mem_append.mp hx with hx | hx
  · exact ha x hx
  · exact hb x hx

theorem failureLast_of_failureFree (tr : List Event) (h : FailureFree tr) : FailureLast tr := by
  induction tr with
  | nil => trivial
  | cons ev rest ih =>
    refine ⟨fun hf => ?_, ih (fun x hx => h x (List.mem_cons_of_mem _ hx))⟩
    have := h ev (List.mem_cons_self _ _)
    rw [this] at hf
    cases hf

theorem failureLast_append (a b : List Event) (ha : FailureFree a) (hb : FailureLast b) :
    FailureLast (a ++ b) := by
  induction a with
  | nil => exact hb
  | cons ev rest ih =>
    refine ⟨fun hf => ?_, ih (fun x hx => ha x (List.mem_cons_of_mem _ hx))⟩
    have := ha ev (List.mem_cons_self _ _)
    rw [this] at hf
    cases hf

theorem failureLast_singleton (ev : Event) : FailureLast [ev] :=
  ⟨fun _ => rfl, trivial⟩

theorem nil_of_failureLast (tr before after : List Event) (ev : Event) (h : FailureLast tr)
    (htr : tr = before ++ ev :: after) (hev : ev.isFailure = true) : after = [] := by
  induction before generalizing tr with
  | nil =>
    subst htr
    exact h.1 hev
  | cons x rest ih =>
    subst htr
    exact ih (rest ++ ev :: after) h.2 rfl

theorem queryTrace_pollLoop {σ : Type} (client : Client σ) (queryId : Option String)
    (fuel : Nat) (st : σ) : QueryTrace (pollLoop client queryId fuel st) := by
  induction fuel generalizing st with
  | zero => exact ⟨failureFree_nil, rfl⟩
  | succ n ih =>
    unfold pollLoop
    split
    · rename_i err st1 _
      exact ⟨rfl, [], _, rfl, failureFree_nil, rfl⟩
    · rename_i queryResult st1 _
      split
      · rename_i hrun
        have hnc : queryResult.Status ≠ QueryStatusComplete := by
          rcases hrun with h | h <;> rw [h] <;> decide
        have hev : (Event.GetQueryResults ⟨queryId⟩ (.ok queryResult)).isFailure = false := by
          simp [Event.isFailure, hrun]
        have hcompl : ∀ tr, completed
            (Event.GetQueryResults ⟨queryId⟩ (.ok queryResult) :: Event.Sleep 5 :: tr)
            = completed tr := by
          intro tr
          simp [completed, hnc]
        have h := ih st1
        unfold QueryTrace at h ⊢
        dsimp only
        split at h
        · rename_i heq
          exact ⟨failureFree_cons _ _ hev (failureFree_cons _ _ rfl h.1), by rw [hcompl]; exact h.2⟩
        · rename_i res heq
          exact ⟨failureFree_cons _ _ hev (failureFree_cons _ _ rfl h.1), by rw [hcompl]; exact h.2⟩
        · rename_i err heq
          obtain ⟨hc, pre, ev, htr, hpre, hfail⟩ := h
          refine ⟨by rw [hcompl]; exact hc, _ :: _ :: pre, ev, by rw [htr]; rfl, ?_, hfail⟩
          exact failureFree_cons _ _ hev (failureFree_cons _ _ rfl hpre)
      · rename_i hrun
        split
        · rename_i hc
          refine ⟨failureFree_cons _ _ ?_ failureFree_nil, ?_⟩
          · simp [Event.isFailure, hc]
          · simp [completed, hc]
        · rename_i hc
          refine ⟨?_, [], _, rfl, failureFree_nil, ?_⟩
          · simp [completed, hc]
          · simp only [Event.isFailure, decide_eq_true_eq]
            exact ⟨hrun, hc⟩

theorem queryTrace_sendQuery {σ : Type} (client : Client σ) (pollFuel : Nat)
    (filter logGroup : String) (start end_ : Int) (st : σ) :
    QueryTrace (App.sendQuery client pollFuel filter logGroup start end_ st) := by
  unfold App.sendQuery
  dsimp only
  split
  · exact ⟨rfl, [], _, rfl, failureFree_nil, rfl⟩
  · rename_i queryOutput st1 _
    have h := queryTrace_pollLoop client queryOutput.QueryId pollFuel st1
    unfold QueryTrace at h ⊢
    dsimp only
    split at h
    · exact ⟨failureFree_cons _ _ rfl h.1, by simpa [completed] using h.2⟩
    · exact ⟨failureFree_cons _ _ rfl h.1, by simpa [completed] using h.2⟩
    · obtain ⟨hc, pre, ev, htr, hpre, hfail⟩ := h
      exact ⟨by simpa [completed] using hc, Event.StartQuery _ (.ok queryOutput) :: pre, ev,
        by rw [htr]; rfl, failureFree_cons (Event.StartQuery _ (.ok queryOutput)) _ rfl hpre,
        hfail⟩

theorem println_of_mem_printFields (fields : List ResultField) :
    ∀ ev ∈ (printFields fields).1, ∃ s, ev = Event.Println s := by
  induction fields with
  | nil => intro ev hev; simp [printFields] at hev
  | cons f rest ih =>
    unfold printFields
    split
    · intro ev hev; simp at hev
    · split
      · split
        · intro ev hev; simp at hev
        · intro ev hev
          rcases List.mem_cons.mp hev with rfl | hev
          · exact ⟨_, rfl⟩
          · exact ih ev hev
      · exact ih

theorem println_of_mem_printResults (results : List (List ResultField)) :
    ∀ ev ∈ (printResults results).1, ∃ s, ev = Event.Println s := by
  induction results with
  | nil => intro ev hev; simp [printResults] at hev
  | cons r rest ih =>
    have h := println_of_mem_printFields r
    unfold printResults
    split
    · rename_i out heq
      rw [heq] at h
      exact h
    · rename_i out heq
      rw [heq] at h
      intro ev hev
      rcases List.mem_append.mp hev with hev | hev
      · exact h ev hev
      · exact ih ev hev

/-- A list of printed lines contains no client call. -/
theorem facts_of_printed (l : List Event)
    (h : ∀ ev ∈ l, (∃ s, ev = Event.Println s) ∨ ∃ n, ev = Event.Printf n) :
    stdout l = l ∧ completed l = [] ∧ windows l = [] ∧ FailureFree l := by
  induction l with
  | nil => exact ⟨rfl, rfl, rfl, failureFree_nil⟩
  | cons ev rest ih =>
    obtain ⟨h1, h2, h3, h4⟩ := ih (fun x hx => h x (List.mem_cons_of_mem _ hx))
    rcases h ev (List.mem_cons_self _ _) with ⟨s, rfl⟩ | ⟨n, rfl⟩
    · refine ⟨?_, ?_, ?_, failureFree_cons _ _ rfl h4⟩
      · simpa [stdout] using h1
      · simpa [completed] using h2
      · simpa [windows] using h3
    · refine ⟨?_, ?_, ?_, failureFree_cons _ _ rfl h4⟩
      · simpa [stdout] using h1
      · simpa [completed] using h2
      · simpa [windows] using h3

theorem facts_of_windowOutput (res : GetQueryResultsOutput) :
    stdout (windowOutput res) = windowOutput res ∧ completed (windowOutput res) = [] ∧
      windows (windowOutput res) = [] ∧ FailureFree (windowOutput res) := by
  apply facts_of_printed
  intro ev hev
  rcases List.mem_cons.mp hev with rfl | hev
  · exact Or.inr ⟨_, rfl⟩
  · exact Or.inl (println_of_mem_printResults _ ev hev)

/-- The five ways one iteration of the window loop can go. -/
theorem windowLoop_succ_cases {σ : Type} (client : Client σ) (pollFuel : Nat) (param : Param)
    (fuel : Nat) (start : Int) (st : σ) :
    ((App.sendQuery client pollFuel param.Filter param.LogGroup start
        (windowEnd param.EndTime start) st).result = none ∧
      windowLoop client pollFuel param (fuel + 1) start st =
        ⟨(App.sendQuery client pollFuel param.Filter param.LogGroup start
            (windowEnd param.EndTime start) st).state,
          (App.sendQuery client pollFuel param.Filter param.LogGroup start
            (windowEnd param.EndTime start) st).trace, none⟩) ∨
    ((∃ err, (App.sendQuery client pollFuel param.Filter param.LogGroup start
        (windowEnd param.EndTime start) st).result = some (.error err)) ∧
      windowLoop client pollFuel param (fuel + 1) start st =
        ⟨(App.sendQuery client pollFuel param.Filter param.LogGroup start
            (windowEnd param.EndTime start) st).state,
          (App.sendQuery client pollFuel param.Filter param.LogGroup start
            (windowEnd param.EndTime start) st).trace, some (.returned none)⟩) ∨
    (∃ res, (App.sendQuery client pollFuel param.Filter param.LogGroup start
        (windowEnd param.EndTime start) st).result = some (.ok res) ∧
      ((printResults res.Results).2 = false ∧
        windowLoop client pollFuel param (fuel + 1) start st =
          ⟨(App.sendQuery client pollFuel param.Filter param.LogGroup start
              (windowEnd param.EndTime start) st).state,
            (App.sendQuery client pollFuel param.Filter param.LogGroup start
              (windowEnd param.EndTime start) st).trace ++ windowOutput res,
            some .panicked⟩ ∨
      (printResults res.Results).2 = true ∧ windowEnd param.EndTime start ≥ param.EndTime ∧
        windowLoop client pollFuel param (fuel + 1) start st =
          ⟨(App.sendQuery client pollFuel param.Filter param.LogGroup start
              (windowEnd param.EndTime start) st).state,
            (App.sendQuery client pollFuel param.Filter param.LogGroup start
              (windowEnd param.EndTime start) st).trace ++ windowOutput res,
            some (.returned none)⟩ ∨
      (printResults res.Results).2 = true ∧ windowEnd param.EndTime start < param.EndTime ∧
        windowLoop client pollFuel param (fuel + 1) start st =
          ⟨(windowLoop client pollFuel param fuel (windowEnd param.EndTime start)
              (App.sendQuery client pollFuel param.Filter param.LogGroup start
                (windowEnd param.EndTime start) st).state).state,
            ((App.sendQuery client pollFuel param.Filter param.LogGroup start
              (windowEnd param.EndTime start) st).trace ++ windowOutput res)
              ++ (windowLoop client pollFuel param fuel (windowEnd param.EndTime start)
              (App.sendQuery client pollFuel param.Filter param.LogGroup start
                (windowEnd param.EndTime start) st).state).trace,
            (windowLoop client pollFuel param fuel (windowEnd param.EndTime start)
              (App.sendQuery client pollFuel param.Filter param.LogGroup start
                (windowEnd param.EndTime start) st).state).result⟩)) := by
  cases hres : (App.sendQuery client pollFuel param.Filter param.LogGroup start
      (windowEnd param.EndTime start) st).result with
  | none => exact Or.inl ⟨rfl, windowLoop_of_none client pollFuel param fuel start st hres⟩
  | some r =>
    cases r with
    | error err =>
      exact Or.inr (Or.inl ⟨⟨err, rfl⟩,
        windowLoop_of_error client pollFuel param fuel start st err hres⟩)
    | ok res =>
      refine Or.inr (Or.inr ⟨res, rfl, ?_⟩)
      cases hp : (printResults res.Results).2 with
      | false =>
        exact Or.inl ⟨rfl, windowLoop_of_panic client pollFuel param fuel start st res hres hp⟩
      | true =>
        by_cases hend : windowEnd param.EndTime start ≥ param.EndTime
        · exact Or.inr (Or.inl ⟨rfl, hend,
            windowLoop_of_last client pollFuel param fuel start st res hres hp hend⟩)
        · exact Or.inr (Or.inr ⟨rfl, by omega,
            windowLoop_of_next client pollFuel param fuel start st res hres hp (by omega)⟩)

/-- What holds of the trace of every run of the window loop: a failure event can only
be the last event, a run with a failure event has returned `nil` with exactly one
window not completed, and the printed lines are the outputs of the completed
queries, in order. -/
theorem windowLoop_invariants {σ : Type} (client : Client σ) (pollFuel : Nat) (param : Param) :
    ∀ (fuel : Nat) (start : Int) (st : σ),
      FailureLast (windowLoop client pollFuel param fuel start st).trace ∧
      ((∃ ev ∈ (windowLoop client pollFuel param fuel start st).trace, ev.isFailure = true) →
        (windowLoop client pollFuel param fuel start st).result = some (.returned none) ∧
        (windows (windowLoop client pollFuel param fuel start st).trace).length
          = (completed (windowLoop client pollFuel param fuel start st).trace).length + 1) ∧
      stdout (windowLoop client pollFuel param fuel start st).trace
        = (completed (windowLoop client pollFuel param fuel start st).trace).flatMap
            windowOutput := by
  intro fuel
  induction fuel with
  | zero =>
    intro start st
    refine ⟨trivial, ?_, rfl⟩
    rintro ⟨ev, hev, _⟩
    simp [windowLoop] at hev
  | succ n ih =>
    intro start st
    have hq := queryTrace_sendQuery client pollFuel param.Filter param.LogGroup start
      (windowEnd param.EndTime start) st
    have hw := windows_sendQuery client pollFuel param.Filter param.LogGroup start
      (windowEnd param.EndTime start) st
    have hs := stdout_sendQuery client pollFuel param.Filter param.LogGroup start
      (windowEnd param.EndTime start) st
    unfold QueryTrace at hq
    rcases windowLoop_succ_cases client pollFuel param n start st with
      ⟨hres, heq⟩ | ⟨⟨err, hres⟩, heq⟩ | ⟨res, hres, hcase⟩
    · rw [hres] at hq
      rw [heq]
      refine ⟨failureLast_of_failureFree _ hq.1, ?_, ?_⟩
      · rintro ⟨ev, hev, hf⟩
        rw [hq.1 ev hev] at hf
        cases hf
      · simp only [hs, hq.2, List.flatMap_nil]
    · rw [hres] at hq
      obtain ⟨hc, pre, ev, htr, hpre, hfail⟩ := hq
      rw [heq]
      refine ⟨?_, fun _ => ⟨rfl, ?_⟩, ?_⟩
      · simp only [htr]
        exact failureLast_append _ _ hpre (failureLast_singleton ev)
      · simp only [hw, hc, List.length_cons, List.length_nil]
      · simp only [hs, hc, List.flatMap_nil]
    · rw [hres] at hq
      obtain ⟨ho1, ho2, ho3, ho4⟩ := facts_of_windowOutput res
      have hff : FailureFree ((App.sendQuery client pollFuel param.Filter param.LogGroup start
          (windowEnd param.EndTime start) st).trace ++ windowOutput res) :=
        failureFree_append _ _ hq.1 ho4
      rcases hcase with ⟨_, heq⟩ | ⟨_, _, heq⟩ | ⟨_, _, heq⟩
      · rw [heq]
        refine ⟨failureLast_of_failureFree _ hff, ?_, ?_⟩
        · rintro ⟨ev, hev, hf⟩
          rw [hff ev hev] at hf
          cases hf
        · simp [stdout_append, completed_append, hs, hq.2, ho1, ho2]
      · rw [heq]
        refine ⟨failureLast_of_failureFree _ hff, ?_, ?_⟩
        · rintro ⟨ev, hev, hf⟩
          rw [hff ev hev] at hf
          cases hf
        · simp [stdout_append, completed_append, hs, hq.2, ho1, ho2]
      · rw [heq]
        obtain ⟨i1, i2, i3⟩ := ih (windowEnd param.EndTime start)
          (App.sendQuery client pollFuel param.Filter param.LogGroup start
            (windowEnd param.EndTime start) st).state
        refine ⟨failureLast_append _ _ hff i1, ?_, ?_⟩
        · rintro ⟨ev, hev, hf⟩
          rcases List.mem_append.mp hev with hev | hev
          · rw [hff ev hev] at hf
            cases hf
          · obtain ⟨j1, j2⟩ := i2 ⟨ev, hev, hf⟩
            refine ⟨j1, ?_⟩
            simp only [windows_append, completed_append, hw, hq.2, ho2, ho3, List.length_append,
              List.length_cons, List.length_nil, j2]
            omega
        · simp [stdout_append, completed_append, hs, hq.2, ho1, ho2, i3]

theorem execute_invariants {σ : Type} (cfg : Except Error Unit) (client : Client σ)
    (pollFuel fuel : Nat) (param : Param) (st : σ) :
    FailureLast (App.Execute cfg client pollFuel fuel param st).trace ∧
    ((∃ ev ∈ (App.Execute cfg client pollFuel fuel param st).trace, ev.isFailure = true) →
      (App.Execute cfg client pollFuel fuel param st).result = some (.returned none) ∧
      (windows (App.Execute cfg client pollFuel fuel param st).trace).length
        = (completed (App.Execute cfg client pollFuel fuel param st).trace).length + 1) ∧
    stdout (App.Execute cfg client pollFuel fuel param st).trace
      = (completed (App.Execute cfg client pollFuel fuel param st).trace).flatMap
          windowOutput := by
  cases cfg with
  | error err =>
    refine ⟨trivial, ?_, rfl⟩
    rintro ⟨ev, hev, _⟩
    simp [App.Execute] at hev
  | ok u => exact windowLoop_invariants client pollFuel param fuel param.StartTime st

/-! ## C7: abort on failure -/

/-- C7: if `sendQuery` fails for a window (the events of that failing call occur in
the trace of the run, after the events `before` of the earlier windows), then nothing
follows the failing call: no later window is submitted and nothing is printed for the
failing window.  The run has returned; the failing window is the last one submitted;
every earlier window completed; the output is exactly the complete output of those
earlier windows, and it is a prefix of the output of any run, such as a fully
successful one, whose first completed windows returned the same results. -/
theorem execute_aborts_on_failure {σ : Type} (cfg : Except Error Unit) (client : Client σ)
    (pollFuel fuel : Nat) (param : Param) (st : σ) (before after : List Event)
    (start end_ : Int) (st1 : σ) (err : Error)
    (htrace : (App.Execute cfg client pollFuel fuel param st).trace
      = before ++ (App.sendQuery client pollFuel param.Filter param.LogGroup start end_ st1).trace
          ++ after)
    (hfail : (App.sendQuery client pollFuel param.Filter param.LogGroup start end_ st1).result
      = some (.error err)) :
    after = [] ∧
    (∃ ret, (App.Execute cfg client pollFuel fuel param st).result = some (.returned ret)) ∧
    windows (App.Execute cfg client pollFuel fuel param st).trace
      = windows before ++ [(start, end_)] ∧
    (completed before).length = (windows before).length ∧
    stdout (App.Execute cfg client pollFuel fuel param st).trace
      = (completed before).flatMap windowOutput ∧
    ∀ {σ' : Type} (cfg' : Except Error Unit) (client' : Client σ') (pollFuel' fuel' : Nat)
      (param' : Param) (st' : σ'),
      completed before <+: completed (App.Execute cfg' client' pollFuel' fuel' param' st').trace →
      stdout (App.Execute cfg client pollFuel fuel param st).trace
        <+: stdout (App.Execute cfg' client' pollFuel' fuel' param' st').trace := by
  obtain ⟨i1, i2, i3⟩ := execute_invariants cfg client pollFuel fuel param st
  have hq := queryTrace_sendQuery client pollFuel param.Filter param.LogGroup start end_ st1
  unfold QueryTrace at hq
  rw [hfail] at hq
  obtain ⟨hc, pre, ev, hqt, _, hev⟩ := hq
  have hw := windows_sendQuery client pollFuel param.Filter param.LogGroup start end_ st1
  have hafter : after = [] := by
    apply nil_of_failureLast _ (before ++ pre) after ev i1 _ hev
    rw [htrace, hqt]
    simp
  subst hafter
  have hmem : ∃ e ∈ (App.Execute cfg client pollFuel fuel param st).trace, e.isFailure = true := by
    refine ⟨ev, ?_, hev⟩
    rw [htrace, hqt]
    simp
  obtain ⟨j1, j2⟩ := i2 hmem
  have hcompl : completed (App.Execute cfg client pollFuel fuel param st).trace
      = completed before := by
    rw [htrace]
    simp [completed_append, hc]
  have hwin : windows (App.Execute cfg client pollFuel fuel param st).trace
      = windows before ++ [(start, end_)] := by
    rw [htrace]
    simp only [windows_append, hw, List.append_nil]
  have hout : stdout (App.Execute cfg client pollFuel fuel param st).trace
      = (completed before).flatMap windowOutput := by
    rw [i3, hcompl]
  refine ⟨rfl, ⟨none, j1⟩, hwin, ?_, hout, ?_⟩
  · rw [hwin, hcompl] at j2
    simp only [List.length_append, List.length_cons, List.length_nil] at j2
    omega
  · intro σ' cfg' client' pollFuel' fuel' param' st' hpre
    obtain ⟨t, ht⟩ := hpre
    rw [hout, (execute_invariants cfg' client' pollFuel' fuel' param' st').2.2, ← ht,
      List.flatMap_append]
    exact List.prefix_append _ _

/-- C7, witness: on the range `[0, 130)` the first query completes with two records
and the second is cancelled.  The run submits the windows `[0,60)` and `[60,120)`
only, prints the count and the message of the first window, and returns. -/
theorem execute_aborts_on_failure_witness :
    (App.sendQuery replayClient 5 exampleParam.Filter exampleParam.LogGroup 60 120
      [.ok ⟨[], QueryStatusCancelled⟩]).result = some (.error "query failed") ∧
    (∃ ret, (App.Execute (.ok ()) replayClient 5 5 exampleParam cancelledScript).result
      = some (.returned ret)) ∧
    windows (App.Execute (.ok ()) replayClient 5 5 exampleParam cancelledScript).trace
      = [(0, 60), (60, 120)] ∧
    stdout (App.Execute (.ok ()) replayClient 5 5 exampleParam cancelledScript).trace
      = windowOutput ⟨exampleRecords, QueryStatusComplete⟩ ∧
    windowOutput ⟨exampleRecords, QueryStatusComplete⟩
      = [.Printf 2, .Println "err: timeout"] := by
  have h := execute_aborts_on_failure (.ok ()) replayClient 5 5 exampleParam cancelledScript
    ((App.sendQuery replayClient 5 exampleParam.Filter exampleParam.LogGroup 0 60
      cancelledScript).trace ++ windowOutput ⟨exampleRecords, QueryStatusComplete⟩)
    [] 60 120 [.ok ⟨[], QueryStatusCancelled⟩] "query failed" rfl rfl
  obtain ⟨_, h2, h3, _, h5, _⟩ := h
  refine ⟨rfl, h2, ?_, ?_, rfl⟩
  · rw [h3]; rfl
  · rw [h5]; rfl

/-! ## C8: the poll loop -/

theorem pollLoop_terminal {σ : Type} (client : Client σ) (queryId : Option String)
    (final : GetQueryResultsOutput) (st1 : σ)
    (hfinal : ¬ (final.Status = QueryStatusRunning ∨ final.Status = QueryStatusScheduled)) :
    ∀ (pending : List GetQueryResultsOutput) (st0 : σ) (fuel : Nat),
      PollsAnswer client queryId (pending ++ [final]) st0 st1 →
      (∀ r ∈ pending, r.Status = QueryStatusRunning ∨ r.Status = QueryStatusScheduled) →
      (fuel ≤ pending.length → (pollLoop client queryId fuel st0).result = none) ∧
      (pending.length < fuel →
        (pollLoop client queryId fuel st0).result
          = (if final.Status = QueryStatusComplete then some (.ok final)
              else some (.error "query failed")) ∧
        pollCount (pollLoop client queryId fuel st0).trace = pending.length + 1 ∧
        (pollLoop client queryId fuel st0).state = st1) := by
  intro pending
  induction pending with
  | nil =>
    intro st0 fuel hp _
    obtain ⟨s, hs, rfl⟩ := hp
    cases fuel with
    | zero => exact ⟨fun _ => rfl, fun h => absurd h (by simp)⟩
    | succ f =>
      refine ⟨fun h => absurd h (by simp), fun _ => ?_⟩
      simp only [pollLoop, hs, if_neg hfinal]
      by_cases hc : final.Status = QueryStatusComplete
      · simp only [if_pos hc]
        exact ⟨trivial, rfl, trivial⟩
      · simp only [if_neg hc]
        exact ⟨trivial, rfl, trivial⟩
  | cons r rest ih =>
    intro st0 fuel hp hrun
    obtain ⟨s, hs, hrest⟩ := hp
    have hr := hrun r (List.mem_cons_self _ _)
    cases fuel with
    | zero => exact ⟨fun _ => rfl, fun h => absurd h (by simp)⟩
    | succ f =>
      obtain ⟨h1, h2⟩ := ih s f hrest (fun x hx => hrun x (List.mem_cons_of_mem _ hx))
      constructor
      · intro hle
        simp only [pollLoop, hs, hr, if_true]
        exact h1 (by simpa using hle)
      · intro hlt
        obtain ⟨k1, k2, k3⟩ := h2 (by simpa using hlt)
        simp only [pollLoop, hs, hr, if_true]
        refine ⟨k1, ?_, k3⟩
        simp only [pollCount, List.filter_cons, List.length_cons] at k2 ⊢
        simp [k2]

/-- C8: if the submission is accepted and the successive polls answer `pending`
followed by `final`, where every response of `pending` is `Running` or `Scheduled`
and `final` is neither, then `final` decides the outcome of `sendQuery`: it returns
`final` itself with no error when its status is `Complete`, and an error and no result
otherwise.  No response of `pending` ends the loop: after as many polls as `pending`
has responses the call has not returned, and when it returns it has made exactly
`pending.length + 1` polls. -/
theorem sendQuery_terminal_status {σ : Type} (client : Client σ) (pollFuel : Nat)
    (filter logGroup : String) (start end_ : Int) (st st0 st1 : σ) (out : StartQueryOutput)
    (pending : List GetQueryResultsOutput) (final : GetQueryResultsOutput)
    (hstart : client.StartQuery ⟨logGroup, queryString filter, start, end_, 10000⟩ st
      = (.ok out, st0))
    (hpolls : PollsAnswer client out.QueryId (pending ++ [final]) st0 st1)
    (hpending : ∀ r ∈ pending, r.Status = QueryStatusRunning ∨ r.Status = QueryStatusScheduled)
    (hfinal : ¬ (final.Status = QueryStatusRunning ∨ final.Status = QueryStatusScheduled)) :
    (pollFuel ≤ pending.length →
      (App.sendQuery client pollFuel filter logGroup start end_ st).result = none) ∧
    (pending.length < pollFuel →
      (App.sendQuery client pollFuel filter logGroup start end_ st).result
        = (if final.Status = QueryStatusComplete then some (.ok final)
            else some (.error "query failed")) ∧
      pollCount (App.sendQuery client pollFuel filter logGroup start end_ st).trace
        = pending.length + 1 ∧
      (App.sendQuery client pollFuel filter logGroup start end_ st).state = st1) := by
  obtain ⟨h1, h2⟩ := pollLoop_terminal client out.QueryId final st1 hfinal pending st0 pollFuel
    hpolls hpending
  have hres : (App.sendQuery client pollFuel filter logGroup start end_ st).result
      = (pollLoop client out.QueryId pollFuel st0).result := by
    simp only [App.sendQuery, hstart]
  have hstate : (App.sendQuery client pollFuel filter logGroup start end_ st).state
      = (pollLoop client out.QueryId pollFuel st0).state := by
    simp only [App.sendQuery, hstart]
  have hcount : pollCount (App.sendQuery client pollFuel filter logGroup start end_ st).trace
      = pollCount (pollLoop client out.QueryId pollFuel st0).trace := by
    simp only [App.sendQuery, hstart, pollCount, List.filter_cons]
    simp
  rw [hres, hstate, hcount]
  exact ⟨h1, h2⟩

/-- C8, witness: the responses `Running`, `Running`, `Complete` make `sendQuery`
poll three times and return the third response. -/
theorem sendQuery_terminal_status_witness :
    (App.sendQuery replayClient 2 "f" "g" 60 120 runningScript).result = none ∧
    (App.sendQuery replayClient 5 "f" "g" 60 120 runningScript).result
      = some (.ok ⟨exampleRecords, QueryStatusComplete⟩) ∧
    pollCount (App.sendQuery replayClient 5 "f" "g" 60 120 runningScript).trace = 3 := by
  have hrun : ∀ r ∈ [(⟨[], QueryStatusRunning⟩ : GetQueryResultsOutput), ⟨[], QueryStatusRunning⟩],
      r.Status = QueryStatusRunning ∨ r.Status = QueryStatusScheduled := by
    intro r hr
    simp only [List.mem_cons, List.mem_singleton, List.mem_nil_iff, or_false] at hr
    rcases hr with rfl | rfl <;> exact Or.inl rfl
  have hfin : ¬ ((⟨exampleRecords, QueryStatusComplete⟩ : GetQueryResultsOutput).Status
      = QueryStatusRunning ∨ (⟨exampleRecords, QueryStatusComplete⟩ : GetQueryResultsOutput).Status
      = QueryStatusScheduled) := by decide
  have hlow := (sendQuery_terminal_status replayClient 2 "f" "g" 60 120 runningScript
    runningScript [] ⟨some "q"⟩ [⟨[], QueryStatusRunning⟩, ⟨[], QueryStatusRunning⟩]
    ⟨exampleRecords, QueryStatusComplete⟩ rfl ⟨_, rfl, _, rfl, _, rfl, rfl⟩ hrun hfin).1
  have hhigh := (sendQuery_terminal_status replayClient 5 "f" "g" 60 120 runningScript
    runningScript [] ⟨some "q"⟩ [⟨[], QueryStatusRunning⟩, ⟨[], QueryStatusRunning⟩]
    ⟨exampleRecords, QueryStatusComplete⟩ rfl ⟨_, rfl, _, rfl, _, rfl, rfl⟩ hrun hfin).2
  obtain ⟨k1, k2, _⟩ := hhigh (by decide)
  exact ⟨hlow (by decide), k1, k2⟩

/-! ## C9: field extraction -/

theorem printFields_in_order (fields : List ResultField) :
    (printFields fields).1 <+: (fields.filterMap messageOf).map Event.Println ∧
    ((printFields fields).2 = true →
      (printFields fields).1 = (fields.filterMap messageOf).map Event.Println) := by
  induction fields with
  | nil => exact ⟨List.prefix_refl _, fun _ => rfl⟩
  | cons f rest ih =>
    obtain ⟨name, value⟩ := f
    cases name with
    | none => exact ⟨List.nil_prefix, fun h => by simp [printFields] at h⟩
    | some name =>
      by_cases hn : name = "@message"
      · cases value with
        | none =>
          refine ⟨?_, fun h => by simp [printFields, hn] at h⟩
          simp [printFields, hn]
        | some value =>
          have e1 : printFields (⟨some name, some value⟩ :: rest)
              = (Event.Println value :: (printFields rest).1, (printFields rest).2) := by
            simp [printFields, hn]
          have e2 : (⟨some name, some value⟩ :: rest : List ResultField).filterMap messageOf
              = value :: rest.filterMap messageOf := by
            simp [List.filterMap_cons, messageOf, hn]
          rw [e1, e2]
          refine ⟨?_, fun h => ?_⟩
          · simpa using ih.1
          · simpa using ih.2 h
      · have e1 : printFields (⟨some name, value⟩ :: rest) = printFields rest := by
          simp [printFields, hn]
        have e2 : (⟨some name, value⟩ :: rest : List ResultField).filterMap messageOf
            = rest.filterMap messageOf := by
          simp [List.filterMap_cons, messageOf, hn]
        rw [e1, e2]
        exact ih

theorem printResults_in_order (results : List (List ResultField)) :
    (printResults results).1 <+: (messageValues results).map Event.Println ∧
    ((printResults results).2 = true →
      (printResults results).1 = (messageValues results).map Event.Println) := by
  induction results with
  | nil => exact ⟨List.prefix_refl _, fun _ => rfl⟩
  | cons r rest ih =>
    obtain ⟨h1, h2⟩ := printFields_in_order r
    have e2 : messageValues (r :: rest) = r.filterMap messageOf ++ messageValues rest := by
      simp [messageValues]
    rw [e2, List.map_append]
    cases hp : (printFields r).2 with
    | false =>
      have e1 : printResults (r :: rest) = ((printFields r).1, false) := by
        have : printFields r = ((printFields r).1, false) := by rw [← hp]
        simp only [printResults]
        rw [this]
      rw [e1]
      exact ⟨h1.trans (List.prefix_append _ _), fun h => by simp at h⟩
    | true =>
      have e1 : printResults (r :: rest)
          = ((printFields r).1 ++ (printResults rest).1, (printResults rest).2) := by
        have : printFields r = ((printFields r).1, true) := by rw [← hp]
        simp only [printResults]
        rw [this]
      rw [e1, h2 hp]
      refine ⟨?_, fun h => ?_⟩
      · exact (List.prefix_append_right_inj _).mpr ih.1
      · rw [ih.2 h]

theorem printFields_of_wellFormed (fields : List ResultField)
    (h : ∀ field ∈ fields, field.Field ≠ none ∧ field.Value ≠ none) :
    (printFields fields).2 = true := by
  induction fields with
  | nil => rfl
  | cons f rest ih =>
    obtain ⟨name, value⟩ := f
    have hf := h ⟨name, value⟩ (List.mem_cons_self _ _)
    have hrest := ih (fun x hx => h x (List.mem_cons_of_mem _ hx))
    cases name with
    | none => exact absurd rfl hf.1
    | some name =>
      cases value with
      | none => exact absurd rfl hf.2
      | some value =>
        by_cases hn : name = "@message"
        · simpa [printFields, hn] using hrest
        · simpa [printFields, hn] using hrest

theorem printResults_of_wellFormed (results : List (List ResultField))
    (h : WellFormed results) : (printResults results).2 = true := by
  induction results with
  | nil => rfl
  | cons r rest ih =>
    have hr := printFields_of_wellFormed r (h r (List.mem_cons_self _ _))
    have hrest := ih (fun x hx => h x (List.mem_cons_of_mem _ hx))
    have : printFields r = ((printFields r).1, true) := by rw [← hr]
    simp only [printResults]
    rw [this]
    exact hrest

theorem flatMap_congr_of_mem {α β : Type} (l : List α) (f g : α → List β)
    (h : ∀ x ∈ l, f x = g x) : l.flatMap f = l.flatMap g := by
  induction l with
  | nil => rfl
  | cons a rest ih =>
    rw [List.flatMap_cons, List.flatMap_cons, h a (List.mem_cons_self _ _),
      ih (fun x hx => h x (List.mem_cons_of_mem _ hx))]

/-- A run that panicked received a response whose printing dereferences nil. -/
theorem windowLoop_panicked {σ : Type} (client : Client σ) (pollFuel : Nat) (param : Param) :
    ∀ (fuel : Nat) (start : Int) (st : σ),
      (windowLoop client pollFuel param fuel start st).result = some .panicked →
      ∃ res ∈ completed (windowLoop client pollFuel param fuel start st).trace,
        (printResults res.Results).2 = false := by
  intro fuel
  induction fuel with
  | zero => intro start st h; simp [windowLoop] at h
  | succ n ih =>
    intro start st
    have hq := queryTrace_sendQuery client pollFuel param.Filter param.LogGroup start
      (windowEnd param.EndTime start) st
    unfold QueryTrace at hq
    rcases windowLoop_succ_cases client pollFuel param n start st with
      ⟨_, heq⟩ | ⟨_, heq⟩ | ⟨res, hres, hcase⟩
    · rw [heq]; intro h; simp at h
    · rw [heq]; intro h; simp at h
    · rw [hres] at hq
      rcases hcase with ⟨hp, heq⟩ | ⟨_, _, heq⟩ | ⟨_, _, heq⟩
      · rw [heq]
        intro _
        exact ⟨res, by simp [completed_append, hq.2], hp⟩
      · rw [heq]; intro h; simp at h
      · rw [heq]
        intro h
        obtain ⟨r, hr, hp⟩ := ih _ _ h
        exact ⟨r, by simp [completed_append, hr], hp⟩

/-- C9: in every run in which the records returned for the completed windows have
non-nil names and values, what `Execute` prints is, window after window, the count
line followed by exactly the values of the fields named `@message`, in record order
and in field order within a record; records without such a field contribute nothing,
no other value is printed, and the run does not panic. -/
theorem execute_emits_message_fields {σ : Type} (cfg : Except Error Unit) (client : Client σ)
    (pollFuel fuel : Nat) (param : Param) (st : σ)
    (hwf : ∀ res ∈ completed (App.Execute cfg client pollFuel fuel param st).trace,
      WellFormed res.Results) :
    stdout (App.Execute cfg client pollFuel fuel param st).trace
      = (completed (App.Execute cfg client pollFuel fuel param st).trace).flatMap
          (fun res => .Printf res.Results.length ::
            (messageValues res.Results).map Event.Println) ∧
    (App.Execute cfg client pollFuel fuel param st).result ≠ some .panicked := by
  constructor
  · rw [(execute_invariants cfg client pollFuel fuel param st).2.2]
    apply flatMap_congr_of_mem
    intro res hres
    have hp := printResults_of_wellFormed res.Results (hwf res hres)
    simp only [windowOutput, (printResults_in_order res.Results).2 hp]
  · intro hpanic
    cases cfg with
    | error err => simp [App.Execute] at hpanic
    | ok u =>
      obtain ⟨res, hres, hp⟩ := windowLoop_panicked client pollFuel param fuel param.StartTime st
        hpanic
      have := printResults_of_wellFormed res.Results (hwf res hres)
      rw [hp] at this
      cases this

theorem wellFormed_exampleRecords : WellFormed exampleRecords := by
  intro record hr field hf
  simp only [exampleRecords, List.mem_cons, List.mem_singleton, List.mem_nil_iff, or_false] at hr
  rcases hr with rfl | rfl
  · simp only [List.mem_cons, List.mem_singleton, List.mem_nil_iff, or_false] at hf
    rcases hf with rfl | rfl <;> simp
  · simp only [List.mem_cons, List.mem_singleton, List.mem_nil_iff, or_false] at hf
    subst hf
    simp

/-- C9, witness: the two example records, one with the message `err: timeout` and one
without a message field, print the count line and that one message. -/
theorem execute_emits_message_fields_witness :
    messageValues exampleRecords = ["err: timeout"] ∧
    stdout (App.Execute (.ok ()) replayClient 5 5 exampleParam cancelledScript).trace
      = (completed (App.Execute (.ok ()) replayClient 5 5 exampleParam cancelledScript).trace).flatMap
          (fun res => .Printf res.Results.length ::
            (messageValues res.Results).map Event.Println) ∧
    (App.Execute (.ok ()) replayClient 5 5 exampleParam cancelledScript).result
      ≠ some .panicked := by
  have hc : completed (App.Execute (.ok ()) replayClient 5 5 exampleParam cancelledScript).trace
      = [⟨exampleRecords, QueryStatusComplete⟩] := by decide
  exact ⟨by decide, execute_emits_message_fields (.ok ()) replayClient 5 5 exampleParam
    cancelledScript (by
      intro res hres
      rw [hc] at hres
      rw [List.mem_singleton.mp hres]
      exact wellFormed_exampleRecords)⟩

/-! ## C10: ordering across windows -/

/-- The trace of a run of the window loop is a sequence of segments, one per window:
the events of the window's query, then the output of that window. -/
theorem windowLoop_segments {σ : Type} (client : Client σ) (pollFuel : Nat) (param : Param) :
    ∀ (fuel : Nat) (start : Int) (st : σ), ∃ segs : List (List Event × List Event),
      (windowLoop client pollFuel param fuel start st).trace
        = segs.flatMap (fun s => s.1 ++ s.2) ∧
      ∀ s ∈ segs, (∃ w, windows s.1 = [w]) ∧ stdout s.1 = [] ∧ (completed s.1).length ≤ 1 ∧
        s.2 = (completed s.1).flatMap windowOutput := by
  intro fuel
  induction fuel with
  | zero => intro start st; exact ⟨[], rfl, fun s hs => by simp at hs⟩
  | succ n ih =>
    intro start st
    have hq := queryTrace_sendQuery client pollFuel param.Filter param.LogGroup start
      (windowEnd param.EndTime start) st
    have hw := windows_sendQuery client pollFuel param.Filter param.LogGroup start
      (windowEnd param.EndTime start) st
    have hs := stdout_sendQuery client pollFuel param.Filter param.LogGroup start
      (windowEnd param.EndTime start) st
    unfold QueryTrace at hq
    have hsilent : ∀ s : List Event × List Event,
        s = ((App.sendQuery client pollFuel param.Filter param.LogGroup start
          (windowEnd param.EndTime start) st).trace, []) →
        completed (App.sendQuery client pollFuel param.Filter param.LogGroup start
          (windowEnd param.EndTime start) st).trace = [] →
        (∃ w, windows s.1 = [w]) ∧ stdout s.1 = [] ∧ (completed s.1).length ≤ 1 ∧
          s.2 = (completed s.1).flatMap windowOutput := by
      intro s hs1 hc
      subst hs1
      exact ⟨⟨_, hw⟩, hs, by simp [hc], by simp [hc]⟩
    have hloud : ∀ (res : GetQueryResultsOutput) (s : List Event × List Event),
        s = ((App.sendQuery client pollFuel param.Filter param.LogGroup start
          (windowEnd param.EndTime start) st).trace, windowOutput res) →
        completed (App.sendQuery client pollFuel param.Filter param.LogGroup start
          (windowEnd param.EndTime start) st).trace = [res] →
        (∃ w, windows s.1 = [w]) ∧ stdout s.1 = [] ∧ (completed s.1).length ≤ 1 ∧
          s.2 = (completed s.1).flatMap windowOutput := by
      intro res s hs1 hc
      subst hs1
      exact ⟨⟨_, hw⟩, hs, by simp [hc], by simp [hc]⟩
    rcases windowLoop_succ_cases client pollFuel param n start st with
      ⟨hres, heq⟩ | ⟨⟨err, hres⟩, heq⟩ | ⟨res, hres, hcase⟩
    · rw [hres] at hq
      refine ⟨[((App.sendQuery client pollFuel param.Filter param.LogGroup start
          (windowEnd param.EndTime start) st).trace, [])], ?_, fun s hmem => ?_⟩
      · rw [heq]; simp
      · exact hsilent s (List.mem_singleton.mp hmem) hq.2
    · rw [hres] at hq
      refine ⟨[((App.sendQuery client pollFuel param.Filter param.LogGroup start
          (windowEnd param.EndTime start) st).trace, [])], ?_, fun s hmem => ?_⟩
      · rw [heq]; simp
      · exact hsilent s (List.mem_singleton.mp hmem) hq.1
    · rw [hres] at hq
      rcases hcase with ⟨_, heq⟩ | ⟨_, _, heq⟩ | ⟨_, _, heq⟩
      · refine ⟨[((App.sendQuery client pollFuel param.Filter param.LogGroup start
          (windowEnd param.EndTime start) st).trace, windowOutput res)], ?_, fun s hmem => ?_⟩
        · rw [heq]; simp
        · exact hloud res s (List.mem_singleton.mp hmem) hq.2
      · refine ⟨[((App.sendQuery client pollFuel param.Filter param.LogGroup start
          (windowEnd param.EndTime start) st).trace, windowOutput res)], ?_, fun s hmem => ?_⟩
        · rw [heq]; simp
        · exact hloud res s (List.mem_singleton.mp hmem) hq.2
      · obtain ⟨segs, htr, hsegs⟩ := ih (windowEnd param.EndTime start)
          (App.sendQuery client pollFuel param.Filter param.LogGroup start
            (windowEnd param.EndTime start) st).state
        refine ⟨((App.sendQuery client pollFuel param.Filter param.LogGroup start
          (windowEnd param.EndTime start) st).trace, windowOutput res) :: segs, ?_, fun s hmem => ?_⟩
        · rw [heq, htr]; simp
        · rcases List.mem_cons.mp hmem with h1 | h2
          · exact hloud res s h1 hq.2
          · exact hsegs s h2

/-- C10: in every run of `Execute` the trace is a sequence of segments, one per
submitted window in submission order, each made of the events of that window's query
(one submission, no printing, at most one `Complete` response) followed by exactly the
output of that window: all output of a window is printed before the next window is
submitted.  The printed output is the concatenation, in window order, of the outputs
of the completed windows, and within a window the lines follow the order of the
records and fields in the response. -/
theorem execute_output_in_window_order {σ : Type} (cfg : Except Error Unit) (client : Client σ)
    (pollFuel fuel : Nat) (param : Param) (st : σ) :
    (∃ segs : List (List Event × List Event),
      (App.Execute cfg client pollFuel fuel param st).trace
        = segs.flatMap (fun s => s.1 ++ s.2) ∧
      ∀ s ∈ segs, (∃ w, windows s.1 = [w]) ∧ stdout s.1 = [] ∧ (completed s.1).length ≤ 1 ∧
        s.2 = (completed s.1).flatMap windowOutput) ∧
    stdout (App.Execute cfg client pollFuel fuel param st).trace
      = (completed (App.Execute cfg client pollFuel fuel param st).trace).flatMap windowOutput ∧
    ∀ res : GetQueryResultsOutput,
      windowOutput res
        <+: .Printf res.Results.length :: (messageValues res.Results).map Event.Println := by
  refine ⟨?_, (execute_invariants cfg client pollFuel fuel param st).2.2, fun res => ?_⟩
  · cases cfg with
    | error err => exact ⟨[], rfl, fun s hs => by simp at hs⟩
    | ok u => exact windowLoop_segments client pollFuel param fuel param.StartTime st
  · obtain ⟨t, ht⟩ := (printResults_in_order res.Results).1
    exact ⟨t, by simp [windowOutput, ht]⟩

/-! ## C11: per-window match count -/

theorem matchCounts_append (a b : List Event) :
    matchCounts (a ++ b) = matchCounts a ++ matchCounts b := by
  simp [matchCounts, List.filterMap_append]

theorem matchCounts_stdout (tr : List Event) : matchCounts (stdout tr) = matchCounts tr := by
  induction tr with
  | nil => rfl
  | cons ev rest ih =>
    cases ev <;> simpa [matchCounts, stdout] using ih

theorem matchCounts_printResults (results : List (List ResultField)) :
    matchCounts (printResults results).1 = [] := by
  have h := println_of_mem_printResults results
  generalize (printResults results).1 = l at h
  induction l with
  | nil => rfl
  | cons ev rest ih =>
    obtain ⟨s, rfl⟩ := h ev (List.mem_cons_self _ _)
    simpa [matchCounts] using ih (fun x hx => h x (List.mem_cons_of_mem _ hx))

theorem matchCounts_flatMap_windowOutput (l : List GetQueryResultsOutput) :
    matchCounts (l.flatMap windowOutput) = l.map fun res => res.Results.length := by
  induction l with
  | nil => rfl
  | cons res rest ih =>
    rw [List.flatMap_cons, matchCounts_append, ih, List.map_cons]
    have h : matchCounts (windowOutput res) = [res.Results.length] := by
      have := matchCounts_printResults res.Results
      simpa [windowOutput, matchCounts] using this
    rw [h]
    rfl

/-- C11: in every run of `Execute`, what is printed for each completed window is a
count line followed by the lines of that window's messages; the count is the number
of records in the response, whether or not they have a message field; the print loop
itself prints no count line; so the counts printed by the run are, in order, the
record counts of the completed windows. -/
theorem execute_reports_match_count {σ : Type} (cfg : Except Error Unit) (client : Client σ)
    (pollFuel fuel : Nat) (param : Param) (st : σ) :
    stdout (App.Execute cfg client pollFuel fuel param st).trace
      = (completed (App.Execute cfg client pollFuel fuel param st).trace).flatMap
          (fun res => .Printf res.Results.length :: (printResults res.Results).1) ∧
    (∀ results : List (List ResultField), matchCounts (printResults results).1 = []) ∧
    matchCounts (App.Execute cfg client pollFuel fuel param st).trace
      = (completed (App.Execute cfg client pollFuel fuel param st).trace).map
          (fun res => res.Results.length) := by
  have h := (execute_invariants cfg client pollFuel fuel param st).2.2
  refine ⟨h, matchCounts_printResults, ?_⟩
  rw [← matchCounts_stdout, h, matchCounts_flatMap_windowOutput]

/-- C11, witness: on the range `[0, 130)` the query for `[60, 120)` is running at two
polls and then complete with two records, one with the message `err: timeout` and one
without a message field: the window's output is the count 2 followed by that one
message, and the counts of the three windows are 0, 2, 0. -/
theorem execute_reports_match_count_witness :
    windowOutput ⟨exampleRecords, QueryStatusComplete⟩
      = [.Printf 2, .Println "err: timeout"] ∧
    stdout (App.Execute (.ok ()) replayClient 5 5 exampleParam exampleScript).trace
      = [.Printf 0, .Printf 2, .Println "err: timeout", .Printf 0] ∧
    matchCounts (App.Execute (.ok ()) replayClient 5 5 exampleParam exampleScript).trace
      = (completed (App.Execute (.ok ()) replayClient 5 5 exampleParam exampleScript).trace).map
          (fun res => res.Results.length) ∧
    matchCounts (App.Execute (.ok ()) replayClient 5 5 exampleParam exampleScript).trace
      = [0, 2, 0] :=
  ⟨rfl, rfl, (execute_reports_match_count (.ok ()) replayClient 5 5 exampleParam
    exampleScript).2.2, by decide⟩

/-! ## C12: error pass-through -/

theorem pollLoop_poll_error {σ : Type} (client : Client σ) (queryId : Option String)
    (err : Error) (st1 st2 : σ)
    (herr : client.GetQueryResults ⟨queryId⟩ st1 = (.error err, st2)) :
    ∀ (pending : List GetQueryResultsOutput) (st0 : σ) (fuel : Nat),
      PollsAnswer client queryId pending st0 st1 →
      (∀ r ∈ pending, r.Status = QueryStatusRunning ∨ r.Status = QueryStatusScheduled) →
      pending.length < fuel →
      (pollLoop client queryId fuel st0).result = some (.error err) ∧
      pollCount (pollLoop client queryId fuel st0).trace = pending.length + 1 ∧
      submissions (pollLoop client queryId fuel st0).trace = [] ∧
      (pollLoop client queryId fuel st0).state = st2 := by
  intro pending
  induction pending with
  | nil =>
    intro st0 fuel hp _ hlt
    have hst : st1 = st0 := hp
    subst hst
    obtain ⟨f, rfl⟩ : ∃ f, fuel = f + 1 := ⟨fuel - 1, by simp at hlt; omega⟩
    simp only [pollLoop, herr]
    exact ⟨trivial, rfl, rfl, trivial⟩
  | cons r rest ih =>
    intro st0 fuel hp hrun hlt
    obtain ⟨s, hs, hrest⟩ := hp
    have hr := hrun r (List.mem_cons_self _ _)
    obtain ⟨f, rfl⟩ : ∃ f, fuel = f + 1 := ⟨fuel - 1, by simp at hlt; omega⟩
    obtain ⟨k1, k2, k3, k4⟩ := ih s f hrest (fun x hx => hrun x (List.mem_cons_of_mem _ hx))
      (by simpa using hlt)
    simp only [pollLoop, hs, hr, if_true]
    refine ⟨k1, ?_, ?_, k4⟩
    · simp only [pollCount, List.filter_cons, List.length_cons] at k2 ⊢
      simp [k2]
    · simpa [submissions] using k3

/-- C12: if the submit call returns the error `err`, `sendQuery` returns that same
error after the one submit call and no poll; if the submission is accepted and, after
the `Running` or `Scheduled` responses `pending`, the next poll returns the error
`err`, `sendQuery` returns that same error after that poll, having submitted once and
polled `pending.length + 1` times: nothing is retried. -/
theorem sendQuery_passes_errors_through {σ : Type} (client : Client σ) (pollFuel : Nat)
    (filter logGroup : String) (start end_ : Int) (st : σ) :
    (∀ (err : Error) (st0 : σ),
      client.StartQuery ⟨logGroup, queryString filter, start, end_, 10000⟩ st
        = (.error err, st0) →
      (App.sendQuery client pollFuel filter logGroup start end_ st).result
        = some (.error err) ∧
      (App.sendQuery client pollFuel filter logGroup start end_ st).trace
        = [.StartQuery ⟨logGroup, queryString filter, start, end_, 10000⟩ (.error err)] ∧
      pollCount (App.sendQuery client pollFuel filter logGroup start end_ st).trace = 0 ∧
      (App.sendQuery client pollFuel filter logGroup start end_ st).state = st0) ∧
    (∀ (out : StartQueryOutput) (st0 st1 st2 : σ) (pending : List GetQueryResultsOutput)
      (err : Error),
      client.StartQuery ⟨logGroup, queryString filter, start, end_, 10000⟩ st
        = (.ok out, st0) →
      PollsAnswer client out.QueryId pending st0 st1 →
      (∀ r ∈ pending, r.Status = QueryStatusRunning ∨ r.Status = QueryStatusScheduled) →
      client.GetQueryResults ⟨out.QueryId⟩ st1 = (.error err, st2) →
      pending.length < pollFuel →
      (App.sendQuery client pollFuel filter logGroup start end_ st).result
        = some (.error err) ∧
      pollCount (App.sendQuery client pollFuel filter logGroup start end_ st).trace
        = pending.length + 1 ∧
      (submissions (App.sendQuery client pollFuel filter logGroup start end_ st).trace).length
        = 1 ∧
      (App.sendQuery client pollFuel filter logGroup start end_ st).state = st2) := by
  constructor
  · intro err st0 hstart
    simp only [App.sendQuery, hstart]
    exact ⟨trivial, trivial, rfl, trivial⟩
  · intro out st0 st1 st2 pending err hstart hpolls hpending herr hlt
    obtain ⟨k1, k2, k3, k4⟩ := pollLoop_poll_error client out.QueryId err st1 st2 herr pending
      st0 pollFuel hpolls hpending hlt
    simp only [App.sendQuery, hstart]
    refine ⟨k1, ?_, ?_, k4⟩
    · simp only [pollCount, List.filter_cons] at k2 ⊢
      simpa using k2
    · simp only [submissions, List.filterMap_cons] at k3 ⊢
      rw [k3]
      rfl

/-- C12, witness: a rejected submission is returned as it is, with no poll; a poll
that fails after one `Running` response is returned as it is, after two polls. -/
theorem sendQuery_passes_errors_through_witness :
    ((App.sendQuery rejectingClient 5 "f" "g" 0 60 ()).result = some (.error "rejected") ∧
      pollCount (App.sendQuery rejectingClient 5 "f" "g" 0 60 ()).trace = 0) ∧
    ((App.sendQuery replayClient 5 "f" "g" 0 60 throttledScript).result
        = some (.error "throttled") ∧
      pollCount (App.sendQuery replayClient 5 "f" "g" 0 60 throttledScript).trace = 2 ∧
      (submissions (App.sendQuery replayClient 5 "f" "g" 0 60 throttledScript).trace).length
        = 1) := by
  have h1 := (sendQuery_passes_errors_through rejectingClient 5 "f" "g" 0 60 ()).1
    "rejected" () rfl
  have h2 := (sendQuery_passes_errors_through replayClient 5 "f" "g" 0 60 throttledScript).2
    ⟨some "q"⟩ throttledScript [.error "throttled"] [] [⟨[], QueryStatusRunning⟩] "throttled"
    rfl ⟨_, rfl, rfl⟩
    (by
      intro r hr
      rw [List.mem_singleton.mp hr]
      exact Or.inl rfl)
    rfl (by decide)
  exact ⟨⟨h1.1, h1.2.2.1⟩, h2.1, h2.2.1, h2.2.2.1⟩

/-! ## C13: the error of a failed query -/

/-- C13, amended: when a job reaches a terminal status other than `Complete` (after
any number of `Running` or `Scheduled` responses), `sendQuery` returns the fixed error
`query failed`, whatever that status is: the error does not carry the status. -/
theorem sendQuery_failure_error_is_fixed {σ : Type} (client : Client σ) (pollFuel : Nat)
    (filter logGroup : String) (start end_ : Int) (st st0 st1 : σ) (out : StartQueryOutput)
    (pending : List GetQueryResultsOutput) (final : GetQueryResultsOutput)
    (hstart : client.StartQuery ⟨logGroup, queryString filter, start, end_, 10000⟩ st
      = (.ok out, st0))
    (hpolls : PollsAnswer client out.QueryId (pending ++ [final]) st0 st1)
    (hpending : ∀ r ∈ pending, r.Status = QueryStatusRunning ∨ r.Status = QueryStatusScheduled)
    (hfinal : ¬ (final.Status = QueryStatusRunning ∨ final.Status = QueryStatusScheduled))
    (hfailed : final.Status ≠ QueryStatusComplete) (hfuel : pending.length < pollFuel) :
    (App.sendQuery client pollFuel filter logGroup start end_ st).result
      = some (.error "query failed") := by
  obtain ⟨k1, _, _⟩ := (pollLoop_terminal client out.QueryId final st1 hfinal pending st0
    pollFuel hpolls hpending).2 hfuel
  rw [if_neg hfailed] at k1
  simp only [App.sendQuery, hstart]
  exact k1

/-- C13, witness: a job that times out after one `Running` response. -/
theorem sendQuery_failure_error_is_fixed_witness :
    (App.sendQuery replayClient 5 "f" "g" 0 60
      [.ok ⟨[], QueryStatusRunning⟩, .ok ⟨[], QueryStatusTimeout⟩]).result
      = some (.error "query failed") :=
  sendQuery_failure_error_is_fixed replayClient 5 "f" "g" 0 60
    [.ok ⟨[], QueryStatusRunning⟩, .ok ⟨[], QueryStatusTimeout⟩]
    [.ok ⟨[], QueryStatusRunning⟩, .ok ⟨[], QueryStatusTimeout⟩] [] ⟨some "q"⟩
    [⟨[], QueryStatusRunning⟩] ⟨[], QueryStatusTimeout⟩ rfl ⟨_, rfl, _, rfl, rfl⟩
    (by
      intro r hr
      rw [List.mem_singleton.mp hr]
      exact Or.inl rfl)
    (by decide) (by decide) (by decide)

/-- C13 as stated fails: a job that ends `Failed` and a job that ends `Cancelled` make
`sendQuery` return the same error, `query failed`; the two statuses cannot be told
apart from the error. -/
theorem failed_and_cancelled_give_the_same_error :
    QueryStatusFailed ≠ QueryStatusCancelled ∧
    (App.sendQuery replayClient 5 "f" "g" 0 60 [.ok ⟨[], QueryStatusFailed⟩]).result
      = some (.error "query failed") ∧
    (App.sendQuery replayClient 5 "f" "g" 0 60 [.ok ⟨[], QueryStatusCancelled⟩]).result
      = some (.error "query failed") ∧
    (App.sendQuery replayClient 5 "f" "g" 0 60 [.ok ⟨[], QueryStatusFailed⟩]).result
      = (App.sendQuery replayClient 5 "f" "g" 0 60 [.ok ⟨[], QueryStatusCancelled⟩]).result :=
  ⟨by decide, rfl, rfl, rfl⟩

/-! ## C14: the submit request -/

theorem submissions_append (a b : List Event) :
    submissions (a ++ b) = submissions a ++ submissions b := by
  simp [submissions, List.filterMap_append]

theorem windows_eq_map_submissions (tr : List Event) :
    windows tr = (submissions tr).map fun input => (input.StartTime, input.EndTime) := by
  induction tr with
  | nil => rfl
  | cons ev rest ih =>
    cases ev <;> simpa [windows, submissions] using ih

theorem submissions_of_windows_nil (tr : List Event) (h : windows tr = []) :
    submissions tr = [] := by
  rw [windows_eq_map_submissions] at h
  exact List.map_eq_nil_iff.mp h

theorem submissions_sendQuery {σ : Type} (client : Client σ) (pollFuel : Nat)
    (filter logGroup : String) (start end_ : Int) (st : σ) :
    submissions (App.sendQuery client pollFuel filter logGroup start end_ st).trace
      = [⟨logGroup, queryString filter, start, end_, 10000⟩] := by
  unfold App.sendQuery
  dsimp only
  split
  · rfl
  · rename_i queryOutput st1 _
    have h := submissions_of_windows_nil _
      (windows_pollLoop client queryOutput.QueryId pollFuel st1)
    simp only [submissions, List.filterMap_cons] at h ⊢
    rw [h]

theorem submissions_windowLoop {σ : Type} (client : Client σ) (pollFuel : Nat) (param : Param) :
    ∀ (fuel : Nat) (start : Int) (st : σ),
      submissions (windowLoop client pollFuel param fuel start st).trace
        = (windows (windowLoop client pollFuel param fuel start st).trace).map
            (fun w => ⟨param.LogGroup, queryString param.Filter, w.1, w.2, 10000⟩) := by
  intro fuel
  induction fuel with
  | zero => intro start st; rfl
  | succ n ih =>
    intro start st
    have hw := windows_sendQuery client pollFuel param.Filter param.LogGroup start
      (windowEnd param.EndTime start) st
    have hs := submissions_sendQuery client pollFuel param.Filter param.LogGroup start
      (windowEnd param.EndTime start) st
    have ho : ∀ res, windows (windowOutput res) = [] ∧ submissions (windowOutput res) = [] :=
      fun res => ⟨(facts_of_windowOutput res).2.2.1,
        submissions_of_windows_nil _ (facts_of_windowOutput res).2.2.1⟩
    rcases windowLoop_succ_cases client pollFuel param n start st with
      ⟨_, heq⟩ | ⟨_, heq⟩ | ⟨res, _, hcase⟩
    · rw [heq]; simp only [hw, hs, List.map_cons, List.map_nil]
    · rw [heq]; simp only [hw, hs, List.map_cons, List.map_nil]
    · rcases hcase with ⟨_, heq⟩ | ⟨_, _, heq⟩ | ⟨_, _, heq⟩
      · rw [heq]
        simp only [windows_append, submissions_append, hw, hs, (ho res).1, (ho res).2,
          List.append_nil, List.map_cons, List.map_nil]
      · rw [heq]
        simp only [windows_append, submissions_append, hw, hs, (ho res).1, (ho res).2,
          List.append_nil, List.map_cons, List.map_nil]
      · rw [heq]
        simp only [windows_append, submissions_append, hw, hs, (ho res).1, (ho res).2,
          List.append_nil, List.map_cons, List.map_nil, List.map_append, ih]

theorem queryString_injective (f1 f2 : String) (h : queryString f1 = queryString f2) :
    f1 = f2 := by
  have hd := congrArg String.data h
  simp only [queryString, String.data_append] at hd
  have h1 := List.append_cancel_left (List.append_cancel_right hd)
  exact String.ext h1

/-- C14: a call of `sendQuery` for the window `(start, end)` sends exactly one submit
request; its start and end time are `start` and `end`, its log group is the given log
group, its limit is 10000 and its query string is the fixed head, then the filter
pattern as it is, then the fixed tail, so that distinct filter patterns give distinct
query strings.  In every run of `Execute` the submit requests are, window for window,
the requests for the run's windows with the log group and the filter of `param`. -/
theorem sendQuery_submit_request {σ : Type} (cfg : Except Error Unit) (client : Client σ)
    (pollFuel fuel : Nat) (param : Param) (st : σ) :
    (∀ (filter logGroup : String) (start end_ : Int) (st0 : σ),
      submissions (App.sendQuery client pollFuel filter logGroup start end_ st0).trace
        = [{ LogGroupName := logGroup,
             QueryString := "fields @timestamp, @message, @logStream, @log\n| filter @message like /"
               ++ filter ++ "/\n| sort @timestamp desc",
             StartTime := start, EndTime := end_, Limit := 10000 }]) ∧
    (∀ f1 f2 : String, queryString f1 = queryString f2 → f1 = f2) ∧
    submissions (App.Execute cfg client pollFuel fuel param st).trace
      = (windows (App.Execute cfg client pollFuel fuel param st).trace).map
          (fun w => ⟨param.LogGroup, queryString param.Filter, w.1, w.2, 10000⟩) := by
  refine ⟨fun filter logGroup start end_ st0 =>
    submissions_sendQuery client pollFuel filter logGroup start end_ st0,
    queryString_injective, ?_⟩
  cases cfg with
  | error err => rfl
  | ok u => exact submissions_windowLoop client pollFuel param fuel param.StartTime st

/-- C14, witness: the three submit requests of the running example. -/
theorem sendQuery_submit_request_witness :
    submissions (App.Execute (.ok ()) replayClient 5 5 exampleParam exampleScript).trace
      = [⟨"g", queryString "f", 0, 60, 10000⟩, ⟨"g", queryString "f", 60, 120, 10000⟩,
          ⟨"g", queryString "f", 120, 130, 10000⟩] := by
  rw [(sendQuery_submit_request (.ok ()) replayClient 5 5 exampleParam exampleScript).2.2]
  decide

/-! ## C15: the loop runs at least once -/

/-- C15: for every pair `(s, e)` of instants that `StartTime()` and `EndTime()` can
return (so `s + 60` does not overflow `int64`), in any order, in a run where every
query succeeds the window loop terminates (enough fuel makes `Execute` return) and
submits exactly `max(1, ceil((e - s) / 60))` windows: at least one query is always
submitted, and for `e ≤ s` that single window is `(s, e)`. -/
theorem execute_submits_at_least_one_window {σ : Type} (client : Client σ) (pollFuel : Nat)
    (param : Param) (st : σ) (hs : ParsedInstant param.StartTime)
    (he : ParsedInstant param.EndTime)
    (hq : ∀ n, RunQueriesSucceed client pollFuel param n param.StartTime st) :
    ∃ fuel0, ∀ fuel, fuel0 ≤ fuel →
      (App.Execute (.ok ()) client pollFuel fuel param st).result = some (.returned none) ∧
      ((windows (App.Execute (.ok ()) client pollFuel fuel param st).trace).length : Int)
        = max 1 ⌈((param.EndTime - param.StartTime : Int) : ℚ) / 60⌉ ∧
      1 ≤ (windows (App.Execute (.ok ()) client pollFuel fuel param st).trace).length ∧
      (param.EndTime ≤ param.StartTime →
        windows (App.Execute (.ok ()) client pollFuel fuel param st).trace
          = [(param.StartTime, param.EndTime)]) := by
  refine ⟨((param.EndTime - param.StartTime - 1) / 60).toNat + 1, fun fuel hf => ?_⟩
  have hs' := int64_of_parsedInstant _ hs
  have he' := int64_of_parsedInstant _ he
  have hn : ((((param.EndTime - param.StartTime - 1) / 60).toNat : Nat) : Int)
      = max ((param.EndTime - param.StartTime - 1) / 60) 0 := by omega
  obtain ⟨h1, htr⟩ := execute_runs_plan client pollFuel param st fuel hs'.1 (by omega)
    (hq _) hf
  have hceil : ⌈((param.EndTime - param.StartTime : Int) : ℚ) / 60⌉
      = (param.EndTime - param.StartTime + 59) / 60 :=
    ceil_div_sixty _ _ (by omega) (by omega)
  refine ⟨h1, ?_, ?_, fun hle => ?_⟩
  · rw [htr, planFrom_length, hceil]
    push_cast
    omega
  · rw [htr, planFrom_length]
    omega
  · have h0 : ((param.EndTime - param.StartTime - 1) / 60).toNat = 0 := by omega
    have hmin : min (param.StartTime + 60) param.EndTime = param.EndTime := by omega
    rw [htr, h0]
    simp [planFrom, hmin]

/-- C15, witness: the inverted range from 10 to 5 takes exactly one window,
`(10, 5)`. -/
theorem execute_submits_at_least_one_window_witness :
    ∃ fuel0, ∀ fuel, fuel0 ≤ fuel →
      (App.Execute (.ok ()) idleClient 1 fuel invertedParam ()).result
        = some (.returned none) ∧
      ((windows (App.Execute (.ok ()) idleClient 1 fuel invertedParam ()).trace).length : Int)
        = max 1 ⌈((invertedParam.EndTime - invertedParam.StartTime : Int) : ℚ) / 60⌉ ∧
      1 ≤ (windows (App.Execute (.ok ()) idleClient 1 fuel invertedParam ()).trace).length ∧
      (invertedParam.EndTime ≤ invertedParam.StartTime →
        windows (App.Execute (.ok ()) idleClient 1 fuel invertedParam ()).trace
          = [(invertedParam.StartTime, invertedParam.EndTime)]) :=
  execute_submits_at_least_one_window idleClient 1 invertedParam () (by decide) (by decide)
    (fun n => runQueriesSucceed_idleClient invertedParam n _ _)

end CloudwatchLogs
